import Mathlib

/-!
chromedp: action composition and input-event synthesis.

A shallow embedding of `input.go` (package `chromedp`): the mouse synthesizer
(`MouseAction`, `MouseClickXY`, `MouseActionNode`), the keyboard synthesizer
(`KeyAction.Do`, `KeyActionNode`) and their option combinators; and of the reply
wait of a generated command, `ClearDataForOriginParams.Do` of `cdp/storage/storage.go`.

An `Action` is run against a frame handler and a trace.  The trace records, in
program order, every command handed to the handler and every pause; the value
returned by `Do` is the Go `error` (or a run-time panic).
-/

namespace Chromedp

/-! ## Parameter types of package `cdp/input` -/

/-- Modelled from the spec: `input.Modifier`, the modifier-flags bit mask of package
`cdp/input` (its declaration is not part of the sources at hand).  A value is the bit
pattern of the mask; `|=` on two masks is the bitwise union and cannot overflow. -/
abbrev Modifier := Nat

/-- Modelled from the spec: `input.ButtonType`, a string-typed enumeration. -/
abbrev ButtonType := String

/-- Modelled from the spec: `input.MouseType`, a string-typed enumeration. -/
abbrev MouseType := String

/-- Modelled from the spec: `input.KeyType`, a string-typed enumeration. -/
abbrev KeyType := String

/-- Modelled from the spec: `cdp.NodeID`, the element reference. -/
abbrev NodeID := Int

/-- Modelled from the spec: `input.ButtonLeft`, the primary button. -/
def ButtonLeft : ButtonType := "left"

/-- Modelled from the spec: `input.ButtonRight`, the secondary button. -/
def ButtonRight : ButtonType := "right"

/-- Modelled from the spec: `input.MousePressed`, the type of a press event. -/
def MousePressed : MouseType := "mousePressed"

/-- Modelled from the spec: `input.MouseReleased`, the type of a release event. -/
def MouseReleased : MouseType := "mouseReleased"

/-- Modelled from the spec: `input.KeyRawDown`, the type of a raw-key-down event. -/
def KeyRawDown : KeyType := "rawKeyDown"

/-- Modelled from the spec: `input.KeyChar`, the type of a character event. -/
def KeyChar : KeyType := "char"

/-- Modelled from the spec: `input.ModifierNone`, the empty modifier mask. -/
def ModifierNone : Modifier := 0

/-- Modelled from the spec: `input.ModifierCtrl`, the control flag. -/
def ModifierCtrl : Modifier := 2

/-- Modelled from the spec: `input.ModifierShift`, the shift flag. -/
def ModifierShift : Modifier := 8

/-- Modelled from the spec: `input.DispatchMouseEventParams`, the parameter value of
the mouse command, with the fields `input.go` reads or writes: event type (`Typ`,
the Go field `Type`), coordinates, modifier flags, button, click count. -/
structure DispatchMouseEventParams where
  Typ : MouseType
  X : Int
  Y : Int
  Modifiers : Modifier
  Button : ButtonType
  ClickCount : Int
  deriving DecidableEq, Repr

/-- Modelled from the spec: `input.DispatchMouseEvent(typ, x, y)`, the freshly
constructed parameter value: the three arguments set, every other field at its
zero value. -/
def DispatchMouseEvent (typ : MouseType) (x y : Int) : DispatchMouseEventParams :=
  { Typ := typ, X := x, Y := y, Modifiers := 0, Button := "", ClickCount := 0 }

/-- Modelled from the spec: `WithButton`, the named mutation of the button field
(spec `withButton`); it returns a copy with that one field replaced. -/
def DispatchMouseEventParams.WithButton (p : DispatchMouseEventParams)
    (button : ButtonType) : DispatchMouseEventParams :=
  { p with Button := button }

/-- Modelled from the spec: `WithClickCount`, the named mutation of the click count
(spec `withClickCount`); it returns a copy with that one field replaced. -/
def DispatchMouseEventParams.WithClickCount (p : DispatchMouseEventParams)
    (clickCount : Int) : DispatchMouseEventParams :=
  { p with ClickCount := clickCount }

/-- Modelled from the spec: `input.DispatchKeyEventParams`, the parameter value of
the key command, with the fields `input.go` reads or writes (`Typ` is the Go field
`Type`). -/
structure DispatchKeyEventParams where
  Typ : KeyType
  Modifiers : Modifier
  Text : String
  KeyIdentifier : String
  Key : String
  WindowsVirtualKeyCode : Int
  NativeVirtualKeyCode : Int
  IsSystemKey : Bool
  deriving DecidableEq, Repr

/-- Modelled from the spec: `input.DispatchKeyEvent(typ)`, the freshly constructed
parameter value: the event type set, every other field at its zero value. -/
def DispatchKeyEvent (typ : KeyType) : DispatchKeyEventParams :=
  { Typ := typ, Modifiers := 0, Text := "", KeyIdentifier := "", Key := "",
    WindowsVirtualKeyCode := 0, NativeVirtualKeyCode := 0, IsSystemKey := false }

/-- Modelled from the spec: `WithKey`, a copy with the named key identifier set. -/
def DispatchKeyEventParams.WithKey (p : DispatchKeyEventParams) (key : String) :
    DispatchKeyEventParams :=
  { p with Key := key }

/-- Modelled from the spec: `WithNativeVirtualKeyCode`, a copy with the native
virtual key code set. -/
def DispatchKeyEventParams.WithNativeVirtualKeyCode (p : DispatchKeyEventParams)
    (kc : Int) : DispatchKeyEventParams :=
  { p with NativeVirtualKeyCode := kc }

/-- Modelled from the spec: `WithWindowsVirtualKeyCode`, a copy with the Windows
virtual key code set. -/
def DispatchKeyEventParams.WithWindowsVirtualKeyCode (p : DispatchKeyEventParams)
    (kc : Int) : DispatchKeyEventParams :=
  { p with WindowsVirtualKeyCode := kc }

/-- Modelled from the spec: `WithKeyIdentifier`, a copy with the textual key
identifier set. -/
def DispatchKeyEventParams.WithKeyIdentifier (p : DispatchKeyEventParams)
    (s : String) : DispatchKeyEventParams :=
  { p with KeyIdentifier := s }

/-- Modelled from the spec: `WithIsSystemKey`, a copy with the system-key flag set. -/
def DispatchKeyEventParams.WithIsSystemKey (p : DispatchKeyEventParams)
    (b : Bool) : DispatchKeyEventParams :=
  { p with IsSystemKey := b }

/-- Modelled from the spec: `WithText`, a copy with the text set. -/
def DispatchKeyEventParams.WithText (p : DispatchKeyEventParams) (s : String) :
    DispatchKeyEventParams :=
  { p with Text := s }

/-- Modelled from the spec: `dom.BoxModel`, of which only the content quad is read.
The coordinates are taken integer-valued and within `int64`: entry `i` stands for
`int64(box.Content[i])`, the conversion of such a coordinate being the coordinate
itself.  For a `float64` outside `int64` Go leaves the result of the conversion to
the implementation; the theorems about the click point assume every entry within
`int64`. -/
structure BoxModel where
  Content : List Int
  deriving DecidableEq, Repr

/-! ## Errors, the dispatch contract and actions -/

/-- The failures an action can return: `ErrInvalidDimensions` of `input.go`, the
three failures of the reply wait (`cdp.ErrChannelClosed`, `cdp.ErrContextDone`,
`cdp.ErrUnknownResult`), and a failure reported by the remote end. -/
inductive Error
  | ErrInvalidDimensions
  | ErrChannelClosed
  | ErrContextDone
  | ErrUnknownResult
  | remote (msg : String)
  deriving DecidableEq, Repr

/-- A command handed to the frame handler. -/
inductive Command
  | mouseEvent (p : DispatchMouseEventParams)
  | keyEvent (p : DispatchKeyEventParams)
  | getBoxModel (n : NodeID)
  | focus (n : NodeID)
  deriving DecidableEq, Repr

/-- What an execution does, in program order: hand a command to the handler, or
pause (`time.Sleep`) for a number of milliseconds. -/
inductive Ev
  | dispatch (c : Command)
  | sleep (ms : Nat)
  deriving DecidableEq, Repr

/-- Modelled from the spec: the dispatch contract (`cdp.FrameHandler`, an external
collaborator).  `exec tr c` is the failure with which the awaited reply of command
`c` resolves, or `none` for a payload, when `tr` is what happened before; `box tr n`
is the payload of a successful geometry query. -/
structure FrameHandler where
  exec : List Ev → Command → Option Error
  box : List Ev → NodeID → BoxModel

/-- The handler never fails: every reply is a payload. -/
def FrameHandler.NeverFails (h : FrameHandler) : Prop :=
  ∀ tr c, h.exec tr c = none

/-- What `Do` returns: `nil`, an error, or a Go run-time panic. -/
inductive Result
  | nil
  | fail (e : Error)
  | panicked
  deriving DecidableEq, Repr

/-- The Go `error` value as a `Result`. -/
def Result.ofError : Option Error → Result
  | none => .nil
  | some e => .fail e

/-- The result of a run together with the trace at its end. -/
structure Outcome where
  result : Result
  trace : List Ev
  deriving DecidableEq, Repr

/-- Modelled from the spec: the `Action` interface, `Do(ctxt, h) error`: run against
a handler, from the trace so far. -/
abbrev Action := FrameHandler → List Ev → Outcome

/-- The commands of a trace, pauses left out. -/
def dispatched : List Ev → List Command
  | [] => []
  | .dispatch c :: rest => c :: dispatched rest
  | .sleep _ :: rest => dispatched rest

/-- Modelled from the spec: `Do` of a command parameter value: the command is handed
to the handler and the reply awaited; the reply's failure, if any, is returned. -/
def Command.Do (c : Command) : Action := fun h tr =>
  ⟨Result.ofError (h.exec tr c), tr ++ [.dispatch c]⟩

/-- Modelled from the spec: `Tasks.Do` (§4.1): the actions run in list order; the
first one that does not return `nil` ends the run with its result. -/
def Tasks : List Action → Action
  | [], _, tr => ⟨.nil, tr⟩
  | a :: rest, h, tr =>
    match a h tr with
    | ⟨.nil, tr1⟩ => Tasks rest h tr1
    | out => out

/-- Modelled from the spec: `dom.GetBoxModel(id).Do`: the geometry query, returning
the box or the failure. -/
def GetBoxModel (n : NodeID) (h : FrameHandler) (tr : List Ev) :
    Except Error BoxModel × List Ev :=
  match h.exec tr (.getBoxModel n) with
  | some e => (.error e, tr ++ [.dispatch (.getBoxModel n)])
  | none => (.ok (h.box tr n), tr ++ [.dispatch (.getBoxModel n)])

/-! ## Mouse synthesizer (`input.go`) -/

/-- `MouseOption` is a mouse action option. -/
abbrev MouseOption := DispatchMouseEventParams → DispatchMouseEventParams

/-- `MouseAction` is a mouse action: the options are applied in order to the fresh
parameter value; the result is the command to dispatch. -/
def MouseAction (typ : MouseType) (x y : Int) (opts : List MouseOption) :
    DispatchMouseEventParams :=
  opts.foldl (fun f o => o f) (DispatchMouseEvent typ x y)

/-- `Button` is a mouse action option to set the button to click. -/
def Button (button : ButtonType) : MouseOption :=
  fun p => p.WithButton button

/-- `ButtonString` is a mouse action option to set the button to click as a string. -/
def ButtonString (btn : String) : MouseOption :=
  Button btn

/-- `ButtonModifiers` is a mouse action option to add additional modifiers for the
button. -/
def ButtonModifiers (modifiers : List Modifier) : MouseOption :=
  fun p => modifiers.foldl (fun q m => { q with Modifiers := q.Modifiers ||| m }) p

/-- `ClickCount` is a mouse action option to set the click count. -/
def ClickCount (n : Int) : MouseOption :=
  fun p => p.WithClickCount n

/-- `MouseClickXY` sends a mouse click at the X, Y location: a press and a release,
each built from the caller's options followed by `Button(ButtonLeft)` and
`ClickCount(1)`. -/
def MouseClickXY (x y : Int) (opts : List MouseOption) : Action :=
  Tasks
    [ (Command.mouseEvent
        (MouseAction MousePressed x y (opts ++ [Button ButtonLeft, ClickCount 1]))).Do,
      (Command.mouseEvent
        (MouseAction MouseReleased x y (opts ++ [Button ButtonLeft, ClickCount 1]))).Do ]

/-- Two-complement wrap-around of an integer into `int64`. -/
def wrapInt64 (v : Int) : Int :=
  (v + 2 ^ 63) % 2 ^ 64 - 2 ^ 63

/-- The summing loop of `MouseActionNode`, `for i := 0; i < c; i += 2`, on a list
of even length: entry `i` is added to `x`, entry `i+1` to `y`, in `int64`.  The
entries are `int64` values (see `BoxModel`); the additions wrap around. -/
def sumContent : List Int → Int × Int → Int × Int
  | a :: b :: rest, (x, y) => sumContent rest (wrapInt64 (x + a), wrapInt64 (y + b))
  | _, acc => acc

/-- `MouseActionNode` dispatches a mouse event at the center of a specified node.
The division `x/int64(c/2)` is Go's `int64` division: it truncates toward zero and
panics on a zero divisor, before `MouseClickXY` is entered. -/
def MouseActionNode (n : NodeID) (opts : List MouseOption) : Action := fun h tr =>
  match GetBoxModel n h tr with
  | (.error err, tr1) => ⟨.fail err, tr1⟩
  | (.ok box, tr1) =>
    let c := box.Content.length
    if c % 2 ≠ 0 then
      ⟨.fail .ErrInvalidDimensions, tr1⟩
    else
      let xy := sumContent box.Content (0, 0)
      if c / 2 = 0 then
        ⟨.panicked, tr1⟩
      else
        MouseClickXY (Int.tdiv xy.1 (c / 2 : Nat)) (Int.tdiv xy.2 (c / 2 : Nat)) opts h tr1

/-! ## Keyboard synthesizer (`input.go`) -/

/-- `KeyOption` is a key action option. -/
abbrev KeyOption := DispatchKeyEventParams → DispatchKeyEventParams

/-- `KeyAction` contains information about a key action. -/
structure KeyAction where
  v : String
  opts : List KeyOption

/-- `KeyCode` are known system key codes. -/
abbrev KeyCode := String

def KeyCodeBackspace : KeyCode := "\x08"
def KeyCodeTab : KeyCode := "\t"
def KeyCodeCR : KeyCode := "\r"
def KeyCodeLF : KeyCode := "\n"
def KeyCodeLeft : KeyCode := "\x25"
def KeyCodeUp : KeyCode := "\x26"
def KeyCodeRight : KeyCode := "\x27"
def KeyCodeDown : KeyCode := "\x28"

def keyRuneCR : Char := '\r'

/-- The entries of the map `keyCodeNames`, in the order of the map literal. -/
def keyCodeTable : List (KeyCode × String) :=
  [ (KeyCodeBackspace, "Backspace"),
    (KeyCodeTab, "Tab"),
    (KeyCodeCR, "Enter"),
    (KeyCodeLF, "Enter"),
    (KeyCodeLeft, "Left"),
    (KeyCodeUp, "Up"),
    (KeyCodeRight, "Right"),
    (KeyCodeDown, "Down") ]

/-- `keyCodeNames` is the map of key code values to their respective named
identifiers; `keyCodeNames k` is the lookup `n, ok := keyCodeNames[k]`. -/
def keyCodeNames (k : KeyCode) : Option String :=
  keyCodeTable.lookup k

/-- `KeyModifiers` is a key action option to add additional modifiers on the key
press. -/
def KeyModifiers (modifiers : List Modifier) : KeyOption :=
  fun p => modifiers.foldl (fun q m => { q with Modifiers := q.Modifiers ||| m }) p

/-- The character event of one code point and the pause after it:
`keyP.WithText(s).Do(ctxt, h)`, then `time.Sleep(100 * time.Millisecond)`. -/
def KeyAction.sendChar (keyP : DispatchKeyEventParams) (s : String) : Action :=
  fun h tr =>
    match (Command.keyEvent (keyP.WithText s)).Do h tr with
    | ⟨.nil, tr1⟩ => ⟨.nil, tr1 ++ [.sleep 100]⟩
    | out => out

/-- The body of the loop of `KeyAction.Do` for the code point `r`; `string(r)` is
`String.singleton r` and `int64(r)` is `r.toNat`. -/
def KeyAction.iter (sysP keyP : DispatchKeyEventParams) (r : Char) : Action :=
  fun h tr =>
    let keyS : KeyCode := String.singleton r
    match keyCodeNames keyS with
    | some n =>
      let s := if keyS = KeyCodeLF then String.singleton keyRuneCR else String.singleton r
      let kc : Int := if keyS = KeyCodeLF then keyRuneCR.toNat else r.toNat
      match (Command.keyEvent
          (((((sysP.WithKey n).WithNativeVirtualKeyCode kc).WithWindowsVirtualKeyCode
            kc).WithKeyIdentifier s).WithIsSystemKey true)).Do h tr with
      | ⟨.nil, tr1⟩ => KeyAction.sendChar keyP s h tr1
      | out => out
    | none => KeyAction.sendChar keyP (String.singleton r) h tr

/-- The loop `for _, r := range ka.v` of `KeyAction.Do`, over the code points of the
text. -/
def KeyAction.loop (sysP keyP : DispatchKeyEventParams) : List Char → Action
  | [], _, tr => ⟨.nil, tr⟩
  | r :: rest, h, tr =>
    match KeyAction.iter sysP keyP r h tr with
    | ⟨.nil, tr1⟩ => KeyAction.loop sysP keyP rest h tr1
    | out => out

/-- `Do` satisfies the `Action` interface: the options are applied to the two fresh
parameter values, then the text is typed code point by code point. -/
def KeyAction.Do (ka : KeyAction) : Action :=
  KeyAction.loop (ka.opts.foldl (fun p o => o p) (DispatchKeyEvent KeyRawDown))
    (ka.opts.foldl (fun p o => o p) (DispatchKeyEvent KeyChar)) ka.v.data

/-- `KeyActionNode` dispatches a key event on a node. -/
def KeyActionNode (n : NodeID) (v : String) (opts : List KeyOption) : Action :=
  Tasks [(Command.focus n).Do, MouseActionNode n [], KeyAction.Do ⟨v, opts⟩]

/-- A handler whose every reply is a payload and whose geometry query returns the
given content quad. -/
def FrameHandler.always (content : List Int) : FrameHandler :=
  { exec := fun _ _ => none, box := fun _ _ => ⟨content⟩ }

/-- The x-coordinates of the vertices of a content quad: entries 0, 2, 4, ... -/
def xCoords : List Int → List Int
  | a :: _ :: rest => a :: xCoords rest
  | _ => []

/-- The y-coordinates of the vertices of a content quad: entries 1, 3, 5, ... -/
def yCoords : List Int → List Int
  | _ :: b :: rest => b :: yCoords rest
  | _ => []

/-- The value lies in the range of `int64`. -/
def InInt64 (v : Int) : Prop :=
  -2 ^ 63 ≤ v ∧ v < 2 ^ 63

instance (v : Int) : Decidable (InInt64 v) := by
  unfold InInt64; infer_instance

/-- A mouse option built by one of the option constructors of `input.go`. -/
inductive BuiltMouseOption : MouseOption → Prop
  | button (b : ButtonType) : BuiltMouseOption (Button b)
  | buttonString (btn : String) : BuiltMouseOption (ButtonString btn)
  | buttonModifiers (modifiers : List Modifier) : BuiltMouseOption (ButtonModifiers modifiers)
  | clickCount (n : Int) : BuiltMouseOption (ClickCount n)

/-- The bitwise union of a list of modifier masks. -/
def modifierUnion : List Modifier → Modifier
  | [] => 0
  | m :: ms => m ||| modifierUnion ms

/-- The events of one iteration of the loop of `KeyAction.Do` for the code point `r`
when no dispatch fails: the raw-key-down event if `r` is a key of `keyCodeNames`,
the character event, the pause. -/
def KeyAction.runeEvents (sysP keyP : DispatchKeyEventParams) (r : Char) : List Ev :=
  (match keyCodeNames (String.singleton r) with
    | some n =>
      [Ev.dispatch (.keyEvent
        { sysP with
          Key := n
          NativeVirtualKeyCode := if r = '\n' then 13 else (r.toNat : Int)
          WindowsVirtualKeyCode := if r = '\n' then 13 else (r.toNat : Int)
          KeyIdentifier := if r = '\n' then "\r" else String.singleton r
          IsSystemKey := true })]
    | none => []) ++
  [ Ev.dispatch (.keyEvent { keyP with Text := if r = '\n' then "\r" else String.singleton r }),
    Ev.sleep 100 ]

/-! ## Storage domain (`cdp/storage/storage.go`) -/

/-- `ClearDataForOriginParams` clears storage for origin. -/
structure ClearDataForOriginParams where
  Origin : String
  StorageTypes : String
  deriving DecidableEq, Repr

/-- `ClearDataForOrigin` clears storage for origin. -/
def ClearDataForOrigin (origin : String) (storageTypes : String) : ClearDataForOriginParams :=
  { Origin := origin, StorageTypes := storageTypes }

/-- The dynamic value `res` received from the reply slot: `nil` (what a closed slot
yields), an `easyjson.RawMessage`, an `error`, or a value of any other type. -/
inductive ReplyValue
  | nilValue
  | rawMessage (buf : String)
  | error (v : Error)
  | other (tag : String)
  deriving DecidableEq, Repr

/-- The case of the `select` of `Do` that fires: `case res := <-ch` with the value
received, or `case <-ctxt.Done()`. -/
inductive SelectCase
  | reply (res : ReplyValue)
  | ctxDone
  deriving DecidableEq, Repr

/-- `Do` executes `Storage.clearDataForOrigin`.  `marshal` stands for
`easyjson.Marshal` and `wait buf` for the case with which the `select` on the slot
returned by `h.Execute(ctxt, cmd, buf)` and on `ctxt.Done()` fires.  Inside the
`select` a `return` gives `some r`; when no `return` is reached control leaves the
`select` and runs the final `return cdp.ErrUnknownResult`. -/
def ClearDataForOriginParams.Do (p : ClearDataForOriginParams)
    (marshal : ClearDataForOriginParams → Except Error String)
    (wait : String → SelectCase) : Option Error :=
  match marshal p with
  | .error err => some err
  | .ok buf =>
    let returned : Option (Option Error) :=
      match wait buf with
      | .reply res =>
        if res = .nilValue then
          some (some .ErrChannelClosed)
        else
          match res with
          | .rawMessage _ => some none
          | .error v => some (some v)
          | _ => none
      | .ctxDone => some (some .ErrContextDone)
    match returned with
    | some r => r
    | none => some .ErrUnknownResult

/-- The cases of the `select` of `Do` that can fire, by the rule of the Go `select`
statement, when the context is done or not (`ctxDone`) and the reply slot is ready
to be received from (`some res`; a closed slot is ready and yields `nilValue`) or not
(`none`): a case can fire when its channel is ready; when both are ready either can
fire; when none is ready the `select` blocks. -/
inductive SelectCase.CanFire (ctxDone : Bool) (slot : Option ReplyValue) : SelectCase → Prop
  | reply (res : ReplyValue) : slot = some res → SelectCase.CanFire ctxDone slot (.reply res)
  | done : ctxDone = true → SelectCase.CanFire ctxDone slot .ctxDone

/-! ## Scripts, runs and handlers used in the statements -/

/-- A script of events played against a handler: each command is dispatched and its
reply awaited, a failure ends the run at once, a pause is taken as it comes.  The
loop of `KeyAction.Do` plays the script of its code points. -/
def runEvents : List Ev → Action
  | [], _, tr => ⟨.nil, tr⟩
  | .dispatch c :: rest, h, tr =>
    match h.exec tr c with
    | none => runEvents rest h (tr ++ [.dispatch c])
    | some e => ⟨.fail e, tr ++ [.dispatch c]⟩
  | .sleep ms :: rest, h, tr => runEvents rest h (tr ++ [.sleep ms])

/-- The actions of the list run one after another from the trace `tr`, each
returning `nil`, and leave the trace `tr1`. -/
inductive RunsOk (h : FrameHandler) : List Action → List Ev → List Ev → Prop
  | done (tr : List Ev) : RunsOk h [] tr tr
  | step (a : Action) (rest : List Action) (tr tr1 tr2 : List Ev) :
      a h tr = ⟨.nil, tr1⟩ → RunsOk h rest tr1 tr2 → RunsOk h (a :: rest) tr tr2

/-- The pauses of a trace. -/
def pauses : List Ev → List Nat
  | [] => []
  | .dispatch _ :: rest => pauses rest
  | .sleep ms :: rest => ms :: pauses rest

/-- A handler that replies with the failure `e` to the command `bad`, with a payload
to every other command, and whose geometry query returns the given content quad. -/
def FrameHandler.failingOn (bad : Command) (e : Error) (content : List Int) : FrameHandler :=
  { exec := fun _ c => if c = bad then some e else none, box := fun _ _ => ⟨content⟩ }

/-- The least of a list of coordinates (0 for the empty list). -/
def minCoord : List Int → Int
  | [] => 0
  | a :: rest => rest.foldl min a

/-- The greatest of a list of coordinates (0 for the empty list). -/
def maxCoord : List Int → Int
  | [] => 0
  | a :: rest => rest.foldl max a

/-! ## Basic facts -/

theorem wrapInt64_of_inInt64 {v : Int} (hv : InInt64 v) : wrapInt64 v = v := by
  unfold InInt64 at hv
  unfold wrapInt64
  omega

theorem wrapInt64_add_left (a b : Int) : wrapInt64 (wrapInt64 a + b) = wrapInt64 (a + b) := by
  unfold wrapInt64
  omega

theorem sumContent_wrap : ∀ (content : List Int) (x y : Int),
    sumContent content (wrapInt64 x, wrapInt64 y) =
      (wrapInt64 (x + (xCoords content).sum), wrapInt64 (y + (yCoords content).sum))
  | [], x, y => by simp [sumContent, xCoords, yCoords]
  | [_], x, y => by simp [sumContent, xCoords, yCoords]
  | a :: b :: rest, x, y => by
    rw [sumContent, wrapInt64_add_left, wrapInt64_add_left, sumContent_wrap rest (x + a) (y + b)]
    simp [xCoords, yCoords, add_assoc]

theorem sumContent_zero (content : List Int)
    (hx : InInt64 (xCoords content).sum) (hy : InInt64 (yCoords content).sum) :
    sumContent content (0, 0) = ((xCoords content).sum, (yCoords content).sum) := by
  have h0 : wrapInt64 0 = 0 := by decide
  have h := sumContent_wrap content 0 0
  rw [h0] at h
  rw [h, zero_add, zero_add, wrapInt64_of_inInt64 hx, wrapInt64_of_inInt64 hy]

theorem GetBoxModel_ok (n : NodeID) (h : FrameHandler) (tr : List Ev)
    (hq : h.exec tr (.getBoxModel n) = none) :
    GetBoxModel n h tr = (.ok (h.box tr n), tr ++ [.dispatch (.getBoxModel n)]) := by
  simp [GetBoxModel, hq]

theorem xCoords_length : ∀ content : List Int, (xCoords content).length = content.length / 2
  | [] => by simp [xCoords]
  | [_] => by simp [xCoords]
  | _ :: _ :: rest => by
    simp only [xCoords, List.length_cons, xCoords_length rest]
    omega

theorem yCoords_length : ∀ content : List Int, (yCoords content).length = content.length / 2
  | [] => by simp [yCoords]
  | [_] => by simp [yCoords]
  | _ :: _ :: rest => by
    simp only [yCoords, List.length_cons, yCoords_length rest]
    omega

theorem tdiv_cast_eq_iff (s : Int) (k : Nat) (hk : 0 < k) :
    ((Int.tdiv s (k : Int) : Int) : ℚ) = (s : ℚ) / (k : ℚ) ↔ (k : Int) ∣ s := by
  have hkq : (k : ℚ) ≠ 0 := by exact_mod_cast hk.ne'
  have hki : (k : Int) ≠ 0 := by exact_mod_cast hk.ne'
  constructor
  · intro h
    rw [eq_div_iff hkq] at h
    refine ⟨Int.tdiv s (k : Int), ?_⟩
    have h2 : (Int.tdiv s (k : Int)) * (k : Int) = s := by exact_mod_cast h
    rw [mul_comm] at h2
    exact h2.symm
  · rintro ⟨m, rfl⟩
    rw [Int.mul_tdiv_cancel_left _ hki, eq_div_iff hkq]
    push_cast
    ring

theorem foldl_min_le (rest : List Int) :
    ∀ a : Int, rest.foldl min a ≤ a ∧ ∀ b ∈ rest, rest.foldl min a ≤ b := by
  induction rest with
  | nil => intro a; simp
  | cons c rest ih =>
    intro a
    obtain ⟨h1, h2⟩ := ih (min a c)
    simp only [List.foldl_cons, List.mem_cons]
    refine ⟨le_trans h1 (min_le_left a c), ?_⟩
    rintro b (rfl | hb)
    · exact le_trans h1 (min_le_right a b)
    · exact h2 b hb

theorem le_foldl_max (rest : List Int) :
    ∀ a : Int, a ≤ rest.foldl max a ∧ ∀ b ∈ rest, b ≤ rest.foldl max a := by
  induction rest with
  | nil => intro a; simp
  | cons c rest ih =>
    intro a
    obtain ⟨h1, h2⟩ := ih (max a c)
    simp only [List.foldl_cons, List.mem_cons]
    refine ⟨le_trans (le_max_left a c) h1, ?_⟩
    rintro b (rfl | hb)
    · exact le_trans (le_max_right a b) h1
    · exact h2 b hb

theorem minCoord_le (l : List Int) (a : Int) (ha : a ∈ l) : minCoord l ≤ a := by
  cases l with
  | nil => simp at ha
  | cons c rest =>
    rcases List.mem_cons.mp ha with rfl | hr
    · exact (foldl_min_le rest a).1
    · exact (foldl_min_le rest c).2 a hr

theorem le_maxCoord (l : List Int) (a : Int) (ha : a ∈ l) : a ≤ maxCoord l := by
  cases l with
  | nil => simp at ha
  | cons c rest =>
    rcases List.mem_cons.mp ha with rfl | hr
    · exact (le_foldl_max rest a).1
    · exact (le_foldl_max rest c).2 a hr

theorem sum_bounds (l : List Int) (lo hi : Int) (hb : ∀ a ∈ l, lo ≤ a ∧ a ≤ hi) :
    lo * (l.length : Int) ≤ l.sum ∧ l.sum ≤ hi * (l.length : Int) := by
  induction l with
  | nil => simp
  | cons c rest ih =>
    obtain ⟨h1, h2⟩ := ih (fun a ha => hb a (List.mem_cons_of_mem _ ha))
    obtain ⟨hc1, hc2⟩ := hb c (List.mem_cons_self _ _)
    simp only [List.length_cons, List.sum_cons, Nat.cast_add, Nat.cast_one]
    constructor <;> nlinarith

theorem tdiv_bounds (s lo hi : Int) (k : Nat) (hk : 0 < k)
    (hlo : lo * (k : Int) ≤ s) (hhi : s ≤ hi * (k : Int)) :
    lo ≤ Int.tdiv s (k : Int) ∧ Int.tdiv s (k : Int) ≤ hi := by
  have hkpos : (0 : Int) < (k : Int) := by exact_mod_cast hk
  by_cases hs : 0 ≤ s
  · rw [Int.tdiv_eq_ediv hs hkpos.le]
    exact ⟨Int.le_ediv_of_mul_le hkpos hlo, Int.ediv_le_of_le_mul hkpos hhi⟩
  · have hneg : s = -(-s) := by omega
    have hns : 0 ≤ -s := by omega
    rw [hneg, Int.neg_tdiv, Int.tdiv_eq_ediv hns hkpos.le]
    have h1 : -s / (k : Int) ≤ -lo :=
      Int.ediv_le_of_le_mul hkpos (by rw [Int.neg_mul]; omega)
    have h2 : -hi ≤ -s / (k : Int) :=
      Int.le_ediv_of_mul_le hkpos (by rw [Int.neg_mul]; omega)
    omega

theorem MouseActionNode_eq_click (n : NodeID) (opts : List MouseOption)
    (h : FrameHandler) (tr : List Ev) (content : List Int)
    (hq : h.exec tr (.getBoxModel n) = none) (hbox : h.box tr n = ⟨content⟩)
    (heven : content.length % 2 = 0) (hne : 0 < content.length)
    (hx : InInt64 (xCoords content).sum) (hy : InInt64 (yCoords content).sum) :
    MouseActionNode n opts h tr =
      MouseClickXY (Int.tdiv (xCoords content).sum ((content.length / 2 : Nat) : Int))
        (Int.tdiv (yCoords content).sum ((content.length / 2 : Nat) : Int)) opts h
        (tr ++ [.dispatch (.getBoxModel n)]) := by
  have hk0 : ¬ content.length / 2 = 0 := by omega
  unfold MouseActionNode
  rw [GetBoxModel_ok n h tr hq]
  simp only [hbox]
  rw [sumContent_zero content hx hy]
  simp [heven, hk0]

theorem foldl_min_mem (rest : List Int) : ∀ a : Int, rest.foldl min a ∈ a :: rest := by
  induction rest with
  | nil => intro a; simp
  | cons c rest ih =>
    intro a
    have h := ih (min a c)
    simp only [List.foldl_cons, List.mem_cons] at h ⊢
    rcases h with h | h
    · rcases min_choice a c with hm | hm
      · exact Or.inl (h.trans hm)
      · exact Or.inr (Or.inl (h.trans hm))
    · exact Or.inr (Or.inr h)

theorem foldl_max_mem (rest : List Int) : ∀ a : Int, rest.foldl max a ∈ a :: rest := by
  induction rest with
  | nil => intro a; simp
  | cons c rest ih =>
    intro a
    have h := ih (max a c)
    simp only [List.foldl_cons, List.mem_cons] at h ⊢
    rcases h with h | h
    · rcases max_choice a c with hm | hm
      · exact Or.inl (h.trans hm)
      · exact Or.inr (Or.inl (h.trans hm))
    · exact Or.inr (Or.inr h)

theorem minCoord_mem (l : List Int) (hl : l ≠ []) : minCoord l ∈ l := by
  cases l with
  | nil => exact absurd rfl hl
  | cons c rest => exact foldl_min_mem rest c

theorem maxCoord_mem (l : List Int) (hl : l ≠ []) : maxCoord l ∈ l := by
  cases l with
  | nil => exact absurd rfl hl
  | cons c rest => exact foldl_max_mem rest c

theorem truncated_mean_in_range (l : List Int) (k : Nat) (hlen : l.length = k) (hk : 0 < k) :
    minCoord l ≤ Int.tdiv l.sum (k : Int) ∧ Int.tdiv l.sum (k : Int) ≤ maxCoord l := by
  have hb := sum_bounds l (minCoord l) (maxCoord l)
    (fun a ha => ⟨minCoord_le l a ha, le_maxCoord l a ha⟩)
  rw [hlen] at hb
  exact tdiv_bounds l.sum _ _ k hk hb.1 hb.2

theorem xCoords_subset : ∀ (content : List Int) (a : Int), a ∈ xCoords content → a ∈ content
  | [], a, ha => by simp [xCoords] at ha
  | [_], a, ha => by simp [xCoords] at ha
  | c :: d :: rest, a, ha => by
    simp only [xCoords, List.mem_cons] at ha ⊢
    rcases ha with rfl | hr
    · exact Or.inl rfl
    · exact Or.inr (Or.inr (xCoords_subset rest a hr))

theorem yCoords_subset : ∀ (content : List Int) (a : Int), a ∈ yCoords content → a ∈ content
  | [], a, ha => by simp [yCoords] at ha
  | [_], a, ha => by simp [yCoords] at ha
  | c :: d :: rest, a, ha => by
    simp only [yCoords, List.mem_cons] at ha ⊢
    rcases ha with rfl | hr
    · exact Or.inr (Or.inl rfl)
    · exact Or.inr (Or.inr (yCoords_subset rest a hr))

theorem truncated_mean_inInt64 (l : List Int) (k : Nat) (hlen : l.length = k) (hk : 0 < k)
    (hl : ∀ a ∈ l, InInt64 a) : InInt64 (Int.tdiv l.sum (k : Int)) := by
  have hne : l ≠ [] := by
    intro hnil
    rw [hnil] at hlen
    simp at hlen
    omega
  have hr := truncated_mean_in_range l k hlen hk
  have hmin := hl _ (minCoord_mem l hne)
  have hmax := hl _ (maxCoord_mem l hne)
  unfold InInt64 at hmin hmax ⊢
  omega

/-! ## Mouse synthesizer: click point and geometry validation -/

/-- C1 (as amended): for a content list of even length with at least one vertex,
integer coordinates each within `int64` and coordinate sums within `int64`,
`MouseActionNode` clicks (delegates to `MouseClickXY`) at the point whose x is the
sum of the x-coordinates divided by the vertex count `length/2` with truncation
toward zero, and likewise for y; that point is the exact arithmetic mean on an axis
exactly when the vertex count divides the sum on that axis, and its coordinates are
again within `int64`. -/
theorem MouseActionNode_clicks_truncated_mean (n : NodeID) (opts : List MouseOption)
    (h : FrameHandler) (tr : List Ev) (content : List Int)
    (hq : h.exec tr (.getBoxModel n) = none) (hbox : h.box tr n = ⟨content⟩)
    (heven : content.length % 2 = 0) (hne : 0 < content.length)
    (hc : ∀ c ∈ content, InInt64 c)
    (hx : InInt64 (xCoords content).sum) (hy : InInt64 (yCoords content).sum) :
    MouseActionNode n opts h tr =
        MouseClickXY (Int.tdiv (xCoords content).sum ((content.length / 2 : Nat) : Int))
          (Int.tdiv (yCoords content).sum ((content.length / 2 : Nat) : Int)) opts h
          (tr ++ [.dispatch (.getBoxModel n)]) ∧
      (xCoords content).length = content.length / 2 ∧
      (yCoords content).length = content.length / 2 ∧
      (((Int.tdiv (xCoords content).sum ((content.length / 2 : Nat) : Int) : Int) : ℚ) =
          ((xCoords content).sum : ℚ) / ((content.length / 2 : Nat) : ℚ) ↔
        ((content.length / 2 : Nat) : Int) ∣ (xCoords content).sum) ∧
      (((Int.tdiv (yCoords content).sum ((content.length / 2 : Nat) : Int) : Int) : ℚ) =
          ((yCoords content).sum : ℚ) / ((content.length / 2 : Nat) : ℚ) ↔
        ((content.length / 2 : Nat) : Int) ∣ (yCoords content).sum) ∧
      InInt64 (Int.tdiv (xCoords content).sum ((content.length / 2 : Nat) : Int)) ∧
      InInt64 (Int.tdiv (yCoords content).sum ((content.length / 2 : Nat) : Int)) := by
  have hk : 0 < content.length / 2 := by omega
  exact ⟨MouseActionNode_eq_click n opts h tr content hq hbox heven hne hx hy,
    xCoords_length content, yCoords_length content,
    tdiv_cast_eq_iff _ _ hk, tdiv_cast_eq_iff _ _ hk,
    truncated_mean_inInt64 _ _ (xCoords_length content) hk
      (fun a ha => hc a (xCoords_subset content a ha)),
    truncated_mean_inInt64 _ _ (yCoords_length content) hk
      (fun a ha => hc a (yCoords_subset content a ha))⟩

/-- C1 (the claim as stated fails): the content list `[0,0,1,0]` has the vertices
`(0,0)` and `(1,0)`, whose mean x-coordinate is `1/2`; `MouseActionNode` presses and
releases at `(0,0)`.  And the content list `[2^62,0,2^62,0]`, whose mean x-coordinate
is `2^62`, is clicked at x = `-2^62`, the `int64` sum having wrapped around. -/
theorem MouseActionNode_not_exact_mean :
    (dispatched (MouseActionNode 1 [] (FrameHandler.always [0, 0, 1, 0]) []).trace =
        [ .getBoxModel 1,
          .mouseEvent { Typ := MousePressed, X := 0, Y := 0, Modifiers := 0,
                        Button := ButtonLeft, ClickCount := 1 },
          .mouseEvent { Typ := MouseReleased, X := 0, Y := 0, Modifiers := 0,
                        Button := ButtonLeft, ClickCount := 1 } ] ∧
      xCoords [0, 0, 1, 0] = [0, 1] ∧
      ((0 : Int) : ℚ) ≠
        (([0, 1] : List Int).sum : ℚ) / (([0, 0, 1, 0] : List Int).length / 2 : Nat)) ∧
    (dispatched
        (MouseActionNode 1 [] (FrameHandler.always [2 ^ 62, 0, 2 ^ 62, 0]) []).trace =
        [ .getBoxModel 1,
          .mouseEvent { Typ := MousePressed, X := -2 ^ 62, Y := 0, Modifiers := 0,
                        Button := ButtonLeft, ClickCount := 1 },
          .mouseEvent { Typ := MouseReleased, X := -2 ^ 62, Y := 0, Modifiers := 0,
                        Button := ButtonLeft, ClickCount := 1 } ] ∧
      xCoords [2 ^ 62, 0, 2 ^ 62, 0] = [2 ^ 62, 2 ^ 62] ∧
      ((-2 ^ 62 : Int) : ℚ) ≠
        (([2 ^ 62, 2 ^ 62] : List Int).sum : ℚ) /
          (([2 ^ 62, 0, 2 ^ 62, 0] : List Int).length / 2 : Nat)) := by
  refine ⟨⟨by decide, by decide, ?_⟩, ⟨by decide, by decide, ?_⟩⟩
  · norm_num
  · norm_num

/-- C1 (witness): the quad `[0,0,10,0,10,10,0,10]` is clicked at `(5,5)`. -/
theorem MouseActionNode_clicks_truncated_mean_witness :
    (FrameHandler.always [0, 0, 10, 0, 10, 10, 0, 10]).exec [] (.getBoxModel 1) = none ∧
      [0, 0, 10, 0, 10, 10, 0, 10].length % 2 = 0 ∧
      0 < [0, 0, 10, 0, 10, 10, 0, 10].length ∧
      (∀ c ∈ ([0, 0, 10, 0, 10, 10, 0, 10] : List Int), InInt64 c) ∧
      InInt64 (xCoords [0, 0, 10, 0, 10, 10, 0, 10]).sum ∧
      InInt64 (yCoords [0, 0, 10, 0, 10, 10, 0, 10]).sum ∧
      MouseActionNode 1 [] (FrameHandler.always [0, 0, 10, 0, 10, 10, 0, 10]) [] =
        MouseClickXY 5 5 [] (FrameHandler.always [0, 0, 10, 0, 10, 10, 0, 10])
          [.dispatch (.getBoxModel 1)] :=
  ⟨rfl, by decide, by decide, by decide, by decide, by decide,
    (MouseActionNode_clicks_truncated_mean 1 [] (FrameHandler.always [0, 0, 10, 0, 10, 10, 0, 10])
      [] [0, 0, 10, 0, 10, 10, 0, 10] rfl rfl (by decide) (by decide) (by decide) (by decide)
      (by decide)).1⟩

/-- C2: when the geometry query succeeds with a content list of odd length,
`MouseActionNode` returns `ErrInvalidDimensions`, and the only command it hands to
the dispatcher is the geometry query: no mouse event, press or release, is
dispatched. -/
theorem MouseActionNode_odd_content (n : NodeID) (opts : List MouseOption)
    (h : FrameHandler) (tr : List Ev)
    (hq : h.exec tr (.getBoxModel n) = none)
    (hodd : (h.box tr n).Content.length % 2 = 1) :
    (MouseActionNode n opts h tr).result = .fail .ErrInvalidDimensions ∧
      (MouseActionNode n opts h tr).trace = tr ++ [.dispatch (.getBoxModel n)] ∧
      ∀ p, Ev.dispatch (.mouseEvent p) ∉ (MouseActionNode n opts h tr).trace.drop tr.length := by
  have hne : ¬ (h.box tr n).Content.length % 2 = 0 := by omega
  simp [MouseActionNode, GetBoxModel_ok n h tr hq, hne]

/-- C2 (witness): a three-entry content list. -/
theorem MouseActionNode_odd_content_witness :
    (FrameHandler.always [1, 2, 3]).exec [] (.getBoxModel 1) = none ∧
      ((FrameHandler.always [1, 2, 3]).box [] 1).Content.length % 2 = 1 ∧
      (MouseActionNode 1 [Button ButtonRight] (FrameHandler.always [1, 2, 3]) []).result =
        .fail .ErrInvalidDimensions ∧
      (MouseActionNode 1 [Button ButtonRight] (FrameHandler.always [1, 2, 3]) []).trace =
        [] ++ [.dispatch (.getBoxModel 1)] :=
  ⟨rfl, rfl,
    (MouseActionNode_odd_content 1 [Button ButtonRight] (FrameHandler.always [1, 2, 3]) [] rfl
      rfl).1,
    (MouseActionNode_odd_content 1 [Button ButtonRight] (FrameHandler.always [1, 2, 3]) [] rfl
      rfl).2.1⟩

/-! ## Mouse synthesizer: options and the click sequence -/

theorem ButtonModifiers_eq (modifiers : List Modifier) :
    ∀ p : DispatchMouseEventParams,
      ButtonModifiers modifiers p =
        { p with Modifiers := p.Modifiers ||| modifierUnion modifiers } := by
  induction modifiers with
  | nil => intro p; simp [ButtonModifiers, modifierUnion]
  | cons m ms ih =>
    intro p
    have h := ih { p with Modifiers := p.Modifiers ||| m }
    simp only [ButtonModifiers, List.foldl_cons] at h ⊢
    rw [h]
    simp [modifierUnion, Nat.lor_assoc]

theorem modifierUnion_testBit (ms : List Modifier) (m : Modifier) (hm : m ∈ ms) (i : Nat)
    (hi : m.testBit i = true) : (modifierUnion ms).testBit i = true := by
  induction ms with
  | nil => simp at hm
  | cons a rest ih =>
    simp only [modifierUnion, Nat.testBit_lor, Bool.or_eq_true]
    rcases List.mem_cons.mp hm with rfl | hrest
    · exact Or.inl hi
    · exact Or.inr (ih hrest)

theorem BuiltMouseOption.apply_retype {o : MouseOption} (ho : BuiltMouseOption o)
    (p : DispatchMouseEventParams) (t : MouseType) :
    o { p with Typ := t } = { o p with Typ := t } ∧
      (o p).Typ = p.Typ ∧ (o p).X = p.X ∧ (o p).Y = p.Y := by
  cases ho <;>
    simp [Button, ButtonString, ClickCount, ButtonModifiers_eq,
      DispatchMouseEventParams.WithButton, DispatchMouseEventParams.WithClickCount]

theorem foldl_built_retype (opts : List MouseOption) (hopts : ∀ o ∈ opts, BuiltMouseOption o) :
    ∀ (p : DispatchMouseEventParams) (t : MouseType),
      opts.foldl (fun f o => o f) { p with Typ := t } =
          { opts.foldl (fun f o => o f) p with Typ := t } ∧
        (opts.foldl (fun f o => o f) p).Typ = p.Typ ∧
        (opts.foldl (fun f o => o f) p).X = p.X ∧
        (opts.foldl (fun f o => o f) p).Y = p.Y := by
  induction opts with
  | nil => intro p t; simp
  | cons o rest ih =>
    intro p t
    have ho := (hopts o (List.mem_cons_self _ _)).apply_retype p t
    have hrest := ih (fun q hq => hopts q (List.mem_cons_of_mem _ hq)) (o p) t
    simp only [List.foldl_cons]
    rw [ho.1]
    refine ⟨hrest.1, ?_, ?_, ?_⟩
    · rw [hrest.2.1, ho.2.1]
    · rw [hrest.2.2.1, ho.2.2.1]
    · rw [hrest.2.2.2, ho.2.2.2]

theorem MouseAction_append_defaults (typ : MouseType) (x y : Int) (opts : List MouseOption) :
    MouseAction typ x y (opts ++ [Button ButtonLeft, ClickCount 1]) =
      { MouseAction typ x y opts with Button := ButtonLeft, ClickCount := 1 } := by
  simp [MouseAction, List.foldl_append, Button, ClickCount,
    DispatchMouseEventParams.WithButton, DispatchMouseEventParams.WithClickCount]

theorem MouseClickXY_neverFails (x y : Int) (opts : List MouseOption) (h : FrameHandler)
    (tr : List Ev) (hok : h.NeverFails) :
    MouseClickXY x y opts h tr =
      ⟨.nil, tr ++
        [ .dispatch (.mouseEvent
            (MouseAction MousePressed x y (opts ++ [Button ButtonLeft, ClickCount 1]))),
          .dispatch (.mouseEvent
            (MouseAction MouseReleased x y (opts ++ [Button ButtonLeft, ClickCount 1]))) ]⟩ := by
  simp [MouseClickXY, Tasks, Command.Do, hok _ _, Result.ofError]

theorem MouseClickXY_cases (x y : Int) (opts : List MouseOption) (h : FrameHandler)
    (tr : List Ev) :
    MouseClickXY x y opts h tr =
        ⟨.nil, tr ++
          [ .dispatch (.mouseEvent
              (MouseAction MousePressed x y (opts ++ [Button ButtonLeft, ClickCount 1]))),
            .dispatch (.mouseEvent
              (MouseAction MouseReleased x y (opts ++ [Button ButtonLeft, ClickCount 1]))) ]⟩ ∨
      (∃ e, MouseClickXY x y opts h tr =
        ⟨.fail e, tr ++
          [ .dispatch (.mouseEvent
              (MouseAction MousePressed x y (opts ++ [Button ButtonLeft, ClickCount 1]))) ]⟩) ∨
      (∃ e, MouseClickXY x y opts h tr =
        ⟨.fail e, tr ++
          [ .dispatch (.mouseEvent
              (MouseAction MousePressed x y (opts ++ [Button ButtonLeft, ClickCount 1]))),
            .dispatch (.mouseEvent
              (MouseAction MouseReleased x y (opts ++ [Button ButtonLeft, ClickCount 1]))) ]⟩) := by
  unfold MouseClickXY
  simp only [Tasks, Command.Do]
  cases h.exec tr (.mouseEvent
      (MouseAction MousePressed x y (opts ++ [Button ButtonLeft, ClickCount 1]))) with
  | some e => right; left; exact ⟨e, by simp [Result.ofError]⟩
  | none =>
    simp only [Result.ofError]
    cases h.exec (tr ++ [.dispatch (.mouseEvent
        (MouseAction MousePressed x y (opts ++ [Button ButtonLeft, ClickCount 1])))])
      (.mouseEvent
        (MouseAction MouseReleased x y (opts ++ [Button ButtonLeft, ClickCount 1]))) with
    | some e => right; right; exact ⟨e, by simp⟩
    | none => left; simp

theorem FrameHandler.always_neverFails (content : List Int) :
    (FrameHandler.always content).NeverFails :=
  fun _ _ => rfl

/-- C3 (as amended): for every `x`, `y` and every list of options built by the option
constructors of the package (`Button`, `ButtonString`, `ButtonModifiers`, `ClickCount`), `MouseClickXY` run against a dispatcher that never
fails returns `nil` and dispatches exactly two mouse events, a press and then a
release, both at `(x, y)` and with the same button, click count and modifiers: the
release is the press with only the event type changed. -/
theorem MouseClickXY_press_then_release (x y : Int) (opts : List MouseOption)
    (h : FrameHandler) (tr : List Ev)
    (hopts : ∀ o ∈ opts, BuiltMouseOption o) (hok : h.NeverFails) :
    ∃ press release : DispatchMouseEventParams,
      MouseClickXY x y opts h tr =
          ⟨.nil, tr ++ [.dispatch (.mouseEvent press), .dispatch (.mouseEvent release)]⟩ ∧
        press.Typ = MousePressed ∧ release.Typ = MouseReleased ∧
        press.X = x ∧ press.Y = y ∧ release.X = x ∧ release.Y = y ∧
        press.Button = release.Button ∧ press.ClickCount = release.ClickCount ∧
        press.Modifiers = release.Modifiers ∧
        release = { press with Typ := MouseReleased } := by
  have hb := foldl_built_retype opts hopts (DispatchMouseEvent MousePressed x y) MouseReleased
  have hrel : MouseAction MouseReleased x y opts =
      { MouseAction MousePressed x y opts with Typ := MouseReleased } := hb.1
  have hT : (MouseAction MousePressed x y opts).Typ = MousePressed := hb.2.1
  have hX : (MouseAction MousePressed x y opts).X = x := hb.2.2.1
  have hY : (MouseAction MousePressed x y opts).Y = y := hb.2.2.2
  refine ⟨_, _, MouseClickXY_neverFails x y opts h tr hok, ?_⟩
  rw [MouseAction_append_defaults, MouseAction_append_defaults, hrel]
  simp [hT, hX, hY]

/-- C3 (witness): a right-button option and two modifier options at `(3, 4)`. -/
theorem MouseClickXY_press_then_release_witness :
    (∀ o ∈ [Button ButtonRight, ButtonModifiers [ModifierShift], ButtonModifiers [ModifierCtrl]],
        BuiltMouseOption o) ∧
      (FrameHandler.always []).NeverFails ∧
      ∃ press release : DispatchMouseEventParams,
        MouseClickXY 3 4
            [Button ButtonRight, ButtonModifiers [ModifierShift], ButtonModifiers [ModifierCtrl]]
            (FrameHandler.always []) [] =
          ⟨.nil, [] ++ [.dispatch (.mouseEvent press), .dispatch (.mouseEvent release)]⟩ ∧
        press.Typ = MousePressed ∧ release.Typ = MouseReleased ∧
        press.X = 3 ∧ press.Y = 4 ∧ release.X = 3 ∧ release.Y = 4 ∧
        press.Button = release.Button ∧ press.ClickCount = release.ClickCount ∧
        press.Modifiers = release.Modifiers ∧
        release = { press with Typ := MouseReleased } :=
  have hb : ∀ o ∈ [Button ButtonRight, ButtonModifiers [ModifierShift],
      ButtonModifiers [ModifierCtrl]], BuiltMouseOption o := by
    intro o ho
    simp only [List.mem_cons, List.mem_singleton, List.not_mem_nil, or_false] at ho
    rcases ho with rfl | rfl | rfl
    · exact .button _
    · exact .buttonModifiers _
    · exact .buttonModifiers _
  ⟨hb, FrameHandler.always_neverFails [],
    MouseClickXY_press_then_release 3 4 _ (FrameHandler.always []) [] hb
      (FrameHandler.always_neverFails [])⟩

/-- C3 (the claim as stated fails): `MouseOption` is a function type, and an option
list may hold an option written by the caller.  With the option that sets the x
coordinate to 99, `MouseClickXY(3, 4, ...)` against a dispatcher that never fails
dispatches the press and the release at `(99, 4)`, not at `(3, 4)`. -/
theorem MouseClickXY_custom_option_moves_click :
    (FrameHandler.always []).NeverFails ∧
      MouseClickXY 3 4 [fun p => { p with X := 99 }] (FrameHandler.always []) [] =
        ⟨.nil,
          [ .dispatch (.mouseEvent { Typ := MousePressed, X := 99, Y := 4, Modifiers := 0,
                                     Button := ButtonLeft, ClickCount := 1 }),
            .dispatch (.mouseEvent { Typ := MouseReleased, X := 99, Y := 4, Modifiers := 0,
                                     Button := ButtonLeft, ClickCount := 1 }) ]⟩ ∧
      (99 : Int) ≠ 3 :=
  ⟨FrameHandler.always_neverFails [], by decide, by decide⟩

/-- C4 (what the code does): whatever button `b` and click count `n` the caller
passes as `Button(b)`, `ClickCount(n)`, the press and the release dispatched by
`MouseClickXY` carry the left button and click count 1, because `Button(ButtonLeft)`
and `ClickCount(1)` are appended after the caller's options and applied last. -/
theorem MouseClickXY_caller_button_overridden (x y : Int) (b : ButtonType) (n : Int) :
    MouseClickXY x y [Button b, ClickCount n] (FrameHandler.always []) [] =
      ⟨.nil,
        [ .dispatch (.mouseEvent { Typ := MousePressed, X := x, Y := y, Modifiers := 0,
                                   Button := ButtonLeft, ClickCount := 1 }),
          .dispatch (.mouseEvent { Typ := MouseReleased, X := x, Y := y, Modifiers := 0,
                                   Button := ButtonLeft, ClickCount := 1 }) ]⟩ := by
  rw [MouseClickXY_neverFails x y _ _ _ (FrameHandler.always_neverFails [])]
  simp [MouseAction, DispatchMouseEvent, Button, ClickCount,
    DispatchMouseEventParams.WithButton, DispatchMouseEventParams.WithClickCount]

/-- C5: with an empty option list, every event dispatched by `MouseClickXY`, whatever
the handler replies, is a mouse event at `(x, y)` with the left button, click count 1
and no modifier flag; against a dispatcher that never fails these are the press and
then the release. -/
theorem MouseClickXY_defaults (x y : Int) (h : FrameHandler) (tr : List Ev) :
    (∃ new, (MouseClickXY x y [] h tr).trace = tr ++ new ∧
      ∀ c, Ev.dispatch c ∈ new →
        ∃ p, c = .mouseEvent p ∧ p.X = x ∧ p.Y = y ∧ p.Button = ButtonLeft ∧
          p.ClickCount = 1 ∧ p.Modifiers = ModifierNone) ∧
      (h.NeverFails →
        MouseClickXY x y [] h tr =
          ⟨.nil, tr ++
            [ .dispatch (.mouseEvent { Typ := MousePressed, X := x, Y := y,
                                       Modifiers := ModifierNone, Button := ButtonLeft,
                                       ClickCount := 1 }),
              .dispatch (.mouseEvent { Typ := MouseReleased, X := x, Y := y,
                                       Modifiers := ModifierNone, Button := ButtonLeft,
                                       ClickCount := 1 }) ]⟩) := by
  have hp : ∀ typ, MouseAction typ x y [Button ButtonLeft, ClickCount 1] =
      { Typ := typ, X := x, Y := y, Modifiers := ModifierNone, Button := ButtonLeft,
        ClickCount := 1 } := by
    intro typ
    simp [MouseAction, DispatchMouseEvent, Button, ClickCount, ModifierNone,
      DispatchMouseEventParams.WithButton, DispatchMouseEventParams.WithClickCount]
  constructor
  · rcases MouseClickXY_cases x y [] h tr with hc | ⟨e, hc⟩ | ⟨e, hc⟩ <;>
      rw [hc] <;> refine ⟨_, rfl, fun c hmem => ?_⟩ <;>
      simp only [List.mem_cons, List.mem_singleton, List.not_mem_nil, or_false,
        Ev.dispatch.injEq] at hmem
    · rcases hmem with rfl | rfl <;> exact ⟨_, rfl, by simp [hp]⟩
    · subst hmem; exact ⟨_, rfl, by simp [hp]⟩
    · rcases hmem with rfl | rfl <;> exact ⟨_, rfl, by simp [hp]⟩
  · intro hok
    rw [MouseClickXY_neverFails x y _ _ _ hok, List.nil_append, hp, hp]

/-- C5 (witness): the click at `(7, 9)` against a handler that never fails. -/
theorem MouseClickXY_defaults_witness :
    (FrameHandler.always []).NeverFails ∧
      MouseClickXY 7 9 [] (FrameHandler.always []) [] =
        ⟨.nil, [] ++
          [ .dispatch (.mouseEvent { Typ := MousePressed, X := 7, Y := 9,
                                     Modifiers := ModifierNone, Button := ButtonLeft,
                                     ClickCount := 1 }),
            .dispatch (.mouseEvent { Typ := MouseReleased, X := 7, Y := 9,
                                     Modifiers := ModifierNone, Button := ButtonLeft,
                                     ClickCount := 1 }) ]⟩ :=
  ⟨FrameHandler.always_neverFails [],
    (MouseClickXY_defaults 7 9 (FrameHandler.always []) []).2
      (FrameHandler.always_neverFails [])⟩

/-- C6: for all modifier lists `a`, `b` and every parameter value `p`, applying
`ButtonModifiers(a)` and then `ButtonModifiers(b)` leaves the modifiers field at
`p.Modifiers | a | b` (for single masks `fa`, `fb`: `p.Modifiers | fa | fb`); the
result does not depend on the order of application, every flag set in `p` stays
set, and every flag of a mask in `a` or `b` is set. -/
theorem ButtonModifiers_merge (a b : List Modifier) (p : DispatchMouseEventParams) :
    (ButtonModifiers b (ButtonModifiers a p)).Modifiers =
        p.Modifiers ||| modifierUnion a ||| modifierUnion b ∧
      ButtonModifiers b (ButtonModifiers a p) = ButtonModifiers a (ButtonModifiers b p) ∧
      (∀ i, p.Modifiers.testBit i = true →
        (ButtonModifiers b (ButtonModifiers a p)).Modifiers.testBit i = true) ∧
      (∀ m ∈ a ++ b, ∀ i, m.testBit i = true →
        (ButtonModifiers b (ButtonModifiers a p)).Modifiers.testBit i = true) ∧
      (∀ fa fb : Modifier,
        (ButtonModifiers [fb] (ButtonModifiers [fa] p)).Modifiers = p.Modifiers ||| fa ||| fb ∧
        ButtonModifiers [fb] (ButtonModifiers [fa] p) =
          ButtonModifiers [fa] (ButtonModifiers [fb] p)) := by
  refine ⟨by simp [ButtonModifiers_eq], ?_, ?_, ?_, ?_⟩
  · simp only [ButtonModifiers_eq, Nat.lor_assoc, Nat.lor_comm (modifierUnion a)]
  · intro i hi
    simp [ButtonModifiers_eq, Nat.testBit_lor, hi]
  · intro m hm i hi
    simp only [ButtonModifiers_eq, Nat.testBit_lor, Bool.or_eq_true]
    rcases List.mem_append.mp hm with ha | hb
    · exact Or.inl (Or.inr (modifierUnion_testBit a m ha i hi))
    · exact Or.inr (modifierUnion_testBit b m hb i hi)
  · intro fa fb
    refine ⟨by simp [ButtonModifiers_eq, modifierUnion], ?_⟩
    simp [ButtonModifiers_eq, modifierUnion, Nat.lor_assoc, Nat.lor_comm fa fb]

/-! ## Keyboard synthesizer -/

theorem singleton_eq_KeyCodeLF (r : Char) : String.singleton r = KeyCodeLF ↔ r = '\n' := by
  simp [String.singleton, KeyCodeLF, String.ext_iff]

theorem keyCodeNames_none_ne_lf (r : Char) (hk : keyCodeNames (String.singleton r) = none) :
    r ≠ '\n' := by
  rintro rfl
  revert hk
  decide

theorem modifierUnion_append (a b : List Modifier) :
    modifierUnion (a ++ b) = modifierUnion a ||| modifierUnion b := by
  induction a with
  | nil => simp [modifierUnion]
  | cons m ms ih => simp [modifierUnion, ih, Nat.lor_assoc]

theorem KeyModifiers_eq (modifiers : List Modifier) :
    ∀ p : DispatchKeyEventParams,
      KeyModifiers modifiers p =
        { p with Modifiers := p.Modifiers ||| modifierUnion modifiers } := by
  induction modifiers with
  | nil => intro p; simp [KeyModifiers, modifierUnion]
  | cons m ms ih =>
    intro p
    have h := ih { p with Modifiers := p.Modifiers ||| m }
    simp only [KeyModifiers, List.foldl_cons] at h ⊢
    rw [h]
    simp [modifierUnion, Nat.lor_assoc]

theorem foldl_KeyModifiers (mods : List (List Modifier)) :
    ∀ p : DispatchKeyEventParams,
      (mods.map KeyModifiers).foldl (fun q o => o q) p =
        { p with Modifiers := p.Modifiers ||| modifierUnion mods.flatten } := by
  induction mods with
  | nil => intro p; simp [modifierUnion]
  | cons ms rest ih =>
    intro p
    simp only [List.map_cons, List.foldl_cons, List.flatten_cons, ih, KeyModifiers_eq,
      modifierUnion_append, Nat.lor_assoc]

theorem KeyAction.sendChar_cases (keyP : DispatchKeyEventParams) (s : String)
    (h : FrameHandler) (tr : List Ev) :
    KeyAction.sendChar keyP s h tr =
        ⟨.nil, tr ++ [.dispatch (.keyEvent { keyP with Text := s }), .sleep 100]⟩ ∨
      ∃ e, KeyAction.sendChar keyP s h tr =
        ⟨.fail e, tr ++ [.dispatch (.keyEvent { keyP with Text := s })]⟩ := by
  unfold KeyAction.sendChar Command.Do
  cases hx : h.exec tr (.keyEvent (keyP.WithText s)) with
  | none => left; simp [Result.ofError, DispatchKeyEventParams.WithText]
  | some e => right; exact ⟨e, by simp [Result.ofError, DispatchKeyEventParams.WithText]⟩

theorem KeyAction.sendChar_neverFails (keyP : DispatchKeyEventParams) (s : String)
    (h : FrameHandler) (tr : List Ev) (hok : h.NeverFails) :
    KeyAction.sendChar keyP s h tr =
      ⟨.nil, tr ++ [.dispatch (.keyEvent { keyP with Text := s }), .sleep 100]⟩ := by
  simp [KeyAction.sendChar, Command.Do, hok _ _, Result.ofError, DispatchKeyEventParams.WithText]

theorem KeyAction.iter_neverFails (sysP keyP : DispatchKeyEventParams) (r : Char)
    (h : FrameHandler) (tr : List Ev) (hok : h.NeverFails) :
    KeyAction.iter sysP keyP r h tr = ⟨.nil, tr ++ KeyAction.runeEvents sysP keyP r⟩ := by
  cases hk : keyCodeNames (String.singleton r) with
  | none =>
    have hr := keyCodeNames_none_ne_lf r hk
    simp [KeyAction.iter, KeyAction.runeEvents, hk,
      KeyAction.sendChar_neverFails _ _ h _ hok, hr]
  | some n =>
    by_cases hr : r = '\n'
    · subst hr
      have hs : String.singleton '\n' = KeyCodeLF := rfl
      have h13 : ((keyRuneCR.toNat : Nat) : Int) = 13 := by decide
      have hcr : String.singleton keyRuneCR = "\r" := rfl
      have hk2 : keyCodeNames KeyCodeLF = some n := hk
      simp [KeyAction.iter, KeyAction.runeEvents, hk2, hs, h13, hcr,
        KeyAction.sendChar_neverFails _ _ h _ hok, Command.Do, hok _ _, Result.ofError,
        DispatchKeyEventParams.WithKey, DispatchKeyEventParams.WithNativeVirtualKeyCode,
        DispatchKeyEventParams.WithWindowsVirtualKeyCode,
        DispatchKeyEventParams.WithKeyIdentifier, DispatchKeyEventParams.WithIsSystemKey]
    · have hs : ¬ String.singleton r = KeyCodeLF := fun hc => hr ((singleton_eq_KeyCodeLF r).mp hc)
      simp [KeyAction.iter, KeyAction.runeEvents, hk, hs, hr,
        KeyAction.sendChar_neverFails _ _ h _ hok, Command.Do, hok _ _, Result.ofError,
        DispatchKeyEventParams.WithKey, DispatchKeyEventParams.WithNativeVirtualKeyCode,
        DispatchKeyEventParams.WithWindowsVirtualKeyCode,
        DispatchKeyEventParams.WithKeyIdentifier, DispatchKeyEventParams.WithIsSystemKey]

theorem KeyAction.loop_neverFails (sysP keyP : DispatchKeyEventParams) (rs : List Char)
    (h : FrameHandler) (hok : h.NeverFails) :
    ∀ tr, KeyAction.loop sysP keyP rs h tr =
      ⟨.nil, tr ++ rs.flatMap (KeyAction.runeEvents sysP keyP)⟩ := by
  induction rs with
  | nil => intro tr; simp [KeyAction.loop]
  | cons r rest ih =>
    intro tr
    simp [KeyAction.loop, KeyAction.iter_neverFails sysP keyP r h tr hok, ih,
      List.flatMap_cons, List.append_assoc]

theorem sentText_eq (r : Char) :
    (if String.singleton r = KeyCodeLF then String.singleton keyRuneCR else String.singleton r) =
      (if r = '\n' then "\r" else String.singleton r) := by
  by_cases hr : r = '\n'
  · subst hr; rfl
  · have hs : ¬ String.singleton r = KeyCodeLF := fun hc => hr ((singleton_eq_KeyCodeLF r).mp hc)
    simp [hs, hr]

theorem sentCode_eq (r : Char) :
    (if String.singleton r = KeyCodeLF then ((keyRuneCR.toNat : Nat) : Int) else (r.toNat : Int)) =
      (if r = '\n' then 13 else (r.toNat : Int)) := by
  by_cases hr : r = '\n'
  · subst hr; rfl
  · have hs : ¬ String.singleton r = KeyCodeLF := fun hc => hr ((singleton_eq_KeyCodeLF r).mp hc)
    simp [hs, hr]

theorem KeyAction.iter_cases (sysP keyP : DispatchKeyEventParams) (r : Char)
    (h : FrameHandler) (tr : List Ev) :
    KeyAction.iter sysP keyP r h tr = ⟨.nil, tr ++ KeyAction.runeEvents sysP keyP r⟩ ∨
      ∃ e new rest, KeyAction.iter sysP keyP r h tr = ⟨.fail e, tr ++ new⟩ ∧
        KeyAction.runeEvents sysP keyP r = new ++ rest := by
  cases hk : keyCodeNames (String.singleton r) with
  | none =>
    have hr := keyCodeNames_none_ne_lf r hk
    simp only [KeyAction.iter, KeyAction.runeEvents, hk, hr, if_false, List.nil_append]
    rcases KeyAction.sendChar_cases keyP (String.singleton r) h tr with hc | ⟨e, hc⟩
    · exact Or.inl hc
    · exact Or.inr ⟨e, _, [.sleep 100], hc, rfl⟩
  | some n =>
    simp only [KeyAction.iter, KeyAction.runeEvents, hk, sentText_eq, sentCode_eq, Command.Do,
      DispatchKeyEventParams.WithKey, DispatchKeyEventParams.WithNativeVirtualKeyCode,
      DispatchKeyEventParams.WithWindowsVirtualKeyCode,
      DispatchKeyEventParams.WithKeyIdentifier, DispatchKeyEventParams.WithIsSystemKey]
    cases hx : h.exec tr (.keyEvent
        { sysP with
          Key := n
          NativeVirtualKeyCode := if r = '\n' then 13 else (r.toNat : Int)
          WindowsVirtualKeyCode := if r = '\n' then 13 else (r.toNat : Int)
          KeyIdentifier := if r = '\n' then "\r" else String.singleton r
          IsSystemKey := true }) with
    | some e =>
      right
      exact ⟨e, _, _, by simp [Result.ofError], rfl⟩
    | none =>
      simp only [Result.ofError]
      rcases KeyAction.sendChar_cases keyP (if r = '\n' then "\r" else String.singleton r) h
        (tr ++ [.dispatch (.keyEvent
          { sysP with
            Key := n
            NativeVirtualKeyCode := if r = '\n' then 13 else (r.toNat : Int)
            WindowsVirtualKeyCode := if r = '\n' then 13 else (r.toNat : Int)
            KeyIdentifier := if r = '\n' then "\r" else String.singleton r
            IsSystemKey := true })]) with hc | ⟨e, hc⟩
      · left
        rw [hc]
        simp
      · right
        refine ⟨e, [_, _], [.sleep 100], ?_, rfl⟩
        rw [hc]
        simp

theorem KeyAction.loop_cases (sysP keyP : DispatchKeyEventParams) (rs : List Char)
    (h : FrameHandler) :
    ∀ tr, ∃ new rest, (KeyAction.loop sysP keyP rs h tr).trace = tr ++ new ∧
      rs.flatMap (KeyAction.runeEvents sysP keyP) = new ++ rest := by
  induction rs with
  | nil => intro tr; exact ⟨[], [], by simp [KeyAction.loop], by simp⟩
  | cons r rest ih =>
    intro tr
    rcases KeyAction.iter_cases sysP keyP r h tr with hc | ⟨e, new, rem, hc, hsplit⟩
    · obtain ⟨new, rem, h1, h2⟩ := ih (tr ++ KeyAction.runeEvents sysP keyP r)
      refine ⟨KeyAction.runeEvents sysP keyP r ++ new, rem, ?_, ?_⟩
      · simp [KeyAction.loop, hc, h1, List.append_assoc]
      · simp [List.flatMap_cons, h2, List.append_assoc]
    · refine ⟨new, rem ++ rest.flatMap (KeyAction.runeEvents sysP keyP), ?_, ?_⟩
      · simp [KeyAction.loop, hc]
      · simp [List.flatMap_cons, hsplit, List.append_assoc]

theorem KeyAction.loop_events (sysP keyP : DispatchKeyEventParams) (rs : List Char)
    (h : FrameHandler) (tr : List Ev) :
    ∃ new, (KeyAction.loop sysP keyP rs h tr).trace = tr ++ new ∧
      ∀ e ∈ new, ∃ r ∈ rs, e ∈ KeyAction.runeEvents sysP keyP r := by
  obtain ⟨new, rem, h1, h2⟩ := KeyAction.loop_cases sysP keyP rs h tr
  refine ⟨new, h1, fun e he => ?_⟩
  have hmem : e ∈ rs.flatMap (KeyAction.runeEvents sysP keyP) := by
    rw [h2]; exact List.mem_append_left _ he
  exact List.mem_flatMap.mp hmem

theorem dispatched_append (a b : List Ev) : dispatched (a ++ b) = dispatched a ++ dispatched b := by
  induction a with
  | nil => simp [dispatched]
  | cons e rest ih => cases e <;> simp [dispatched, ih]

theorem KeyAction.Do_eq_loop (v : String) (mods : List (List Modifier)) :
    KeyAction.Do ⟨v, mods.map KeyModifiers⟩ =
      KeyAction.loop { DispatchKeyEvent KeyRawDown with Modifiers := modifierUnion mods.flatten }
        { DispatchKeyEvent KeyChar with Modifiers := modifierUnion mods.flatten } v.data := by
  simp [KeyAction.Do, foldl_KeyModifiers, DispatchKeyEvent]

theorem dispatched_runeEvents (m : Modifier) (r : Char) :
    dispatched (KeyAction.runeEvents { DispatchKeyEvent KeyRawDown with Modifiers := m }
        { DispatchKeyEvent KeyChar with Modifiers := m } r) =
      (match keyCodeNames (String.singleton r) with
        | some n =>
          [Command.keyEvent
            { Typ := KeyRawDown, Modifiers := m, Text := "",
              KeyIdentifier := if r = '\n' then "\r" else String.singleton r,
              Key := n,
              WindowsVirtualKeyCode := if r = '\n' then 13 else (r.toNat : Int),
              NativeVirtualKeyCode := if r = '\n' then 13 else (r.toNat : Int),
              IsSystemKey := true }]
        | none => []) ++
      [Command.keyEvent
        { Typ := KeyChar, Modifiers := m,
          Text := if r = '\n' then "\r" else String.singleton r,
          KeyIdentifier := "", Key := "", WindowsVirtualKeyCode := 0,
          NativeVirtualKeyCode := 0, IsSystemKey := false }] := by
  cases hk : keyCodeNames (String.singleton r) <;>
    simp [KeyAction.runeEvents, hk, dispatched, DispatchKeyEvent]

theorem dispatched_flatMap_runeEvents (m : Modifier) (rs : List Char) :
    dispatched (rs.flatMap (KeyAction.runeEvents { DispatchKeyEvent KeyRawDown with Modifiers := m }
        { DispatchKeyEvent KeyChar with Modifiers := m })) =
      rs.flatMap (fun r =>
        (match keyCodeNames (String.singleton r) with
          | some n =>
            [Command.keyEvent
              { Typ := KeyRawDown, Modifiers := m, Text := "",
                KeyIdentifier := if r = '\n' then "\r" else String.singleton r,
                Key := n,
                WindowsVirtualKeyCode := if r = '\n' then 13 else (r.toNat : Int),
                NativeVirtualKeyCode := if r = '\n' then 13 else (r.toNat : Int),
                IsSystemKey := true }]
          | none => []) ++
        [Command.keyEvent
          { Typ := KeyChar, Modifiers := m,
            Text := if r = '\n' then "\r" else String.singleton r,
            KeyIdentifier := "", Key := "", WindowsVirtualKeyCode := 0,
            NativeVirtualKeyCode := 0, IsSystemKey := false }]) := by
  induction rs with
  | nil => simp [dispatched]
  | cons r rest ih =>
    rw [List.flatMap_cons, List.flatMap_cons, dispatched_append, ih, dispatched_runeEvents]

theorem KeyAction.Do_events (v : String) (mods : List (List Modifier)) (h : FrameHandler)
    (tr : List Ev) :
    ∃ new, (KeyAction.Do ⟨v, mods.map KeyModifiers⟩ h tr).trace = tr ++ new ∧
      ∀ e ∈ new, ∃ r ∈ v.data,
        e ∈ KeyAction.runeEvents
          { DispatchKeyEvent KeyRawDown with Modifiers := modifierUnion mods.flatten }
          { DispatchKeyEvent KeyChar with Modifiers := modifierUnion mods.flatten } r := by
  rw [KeyAction.Do_eq_loop]
  exact KeyAction.loop_events _ _ _ h tr

theorem KeyAction.Do_neverFails (v : String) (mods : List (List Modifier)) (h : FrameHandler)
    (tr : List Ev) (hok : h.NeverFails) :
    KeyAction.Do ⟨v, mods.map KeyModifiers⟩ h tr =
      ⟨.nil, tr ++ v.data.flatMap (KeyAction.runeEvents
        { DispatchKeyEvent KeyRawDown with Modifiers := modifierUnion mods.flatten }
        { DispatchKeyEvent KeyChar with Modifiers := modifierUnion mods.flatten })⟩ := by
  rw [KeyAction.Do_eq_loop]
  exact KeyAction.loop_neverFails _ _ _ h hok tr

theorem lookup_mem_values {k : KeyCode} {n : String} :
    ∀ (table : List (KeyCode × String)), table.lookup k = some n → n ∈ table.map Prod.snd
  | [], hl => by simp at hl
  | (a, b) :: rest, hl => by
    simp only [List.lookup] at hl
    split at hl
    · simp only [Option.some.injEq] at hl
      simp [hl]
    · simp [lookup_mem_values rest hl]

theorem keyCodeNames_no_lf {k : KeyCode} {n : String} (hk : keyCodeNames k = some n) :
    '\n' ∉ n.data := by
  have hmem := lookup_mem_values keyCodeTable hk
  simp only [keyCodeTable, List.map_cons, List.map_nil, List.mem_cons, List.mem_singleton,
    List.not_mem_nil, or_false] at hmem
  rcases hmem with rfl | rfl | rfl | rfl | rfl | rfl | rfl | rfl <;> decide

theorem sentText_no_lf (r : Char) :
    '\n' ∉ (if r = '\n' then "\r" else String.singleton r).data := by
  by_cases hr : r = '\n'
  · subst hr; decide
  · simp [hr, String.singleton]
    exact fun hc => hr hc.symm

/-- C7: for a `KeyAction` whose options are `KeyModifiers(a)` and `KeyModifiers(b)`,
whatever the text and the handler, every command the action dispatches is a key
event, raw-key-down or character, whose modifiers field is `a | b` (for single
masks `fa`, `fb`: `fa | fb`). -/
theorem KeyAction_modifiers_merged (a b : List Modifier) (v : String) (h : FrameHandler)
    (tr : List Ev) :
    (∃ new, (KeyAction.Do ⟨v, [KeyModifiers a, KeyModifiers b]⟩ h tr).trace = tr ++ new ∧
      ∀ c, Ev.dispatch c ∈ new →
        ∃ p, c = .keyEvent p ∧ (p.Typ = KeyRawDown ∨ p.Typ = KeyChar) ∧
          p.Modifiers = modifierUnion a ||| modifierUnion b) ∧
      (∀ fa fb : Modifier,
        ∃ new, (KeyAction.Do ⟨v, [KeyModifiers [fa], KeyModifiers [fb]]⟩ h tr).trace = tr ++ new ∧
          ∀ c, Ev.dispatch c ∈ new →
            ∃ p, c = .keyEvent p ∧ (p.Typ = KeyRawDown ∨ p.Typ = KeyChar) ∧
              p.Modifiers = fa ||| fb) := by
  have key : ∀ x y : List Modifier,
      ∃ new, (KeyAction.Do ⟨v, [KeyModifiers x, KeyModifiers y]⟩ h tr).trace = tr ++ new ∧
        ∀ c, Ev.dispatch c ∈ new →
          ∃ p, c = .keyEvent p ∧ (p.Typ = KeyRawDown ∨ p.Typ = KeyChar) ∧
            p.Modifiers = modifierUnion x ||| modifierUnion y := by
    intro x y
    obtain ⟨new, hnew, hev⟩ := KeyAction.Do_events v [x, y] h tr
    refine ⟨new, hnew, fun c hc => ?_⟩
    obtain ⟨r, -, hr⟩ := hev _ hc
    have hu : modifierUnion [x, y].flatten = modifierUnion x ||| modifierUnion y := by
      simp [modifierUnion_append, modifierUnion]
    rw [hu] at hr
    cases hk : keyCodeNames (String.singleton r) <;>
      simp [KeyAction.runeEvents, hk, DispatchKeyEvent] at hr <;>
      rcases hr with rfl | rfl <;> simp
  refine ⟨key a b, fun fa fb => ?_⟩
  have hs := key [fa] [fb]
  simpa [modifierUnion] using hs

/-- C8: for every text, every list of `KeyModifiers` options and a dispatcher that
never fails, `KeyAction.Do` returns `nil` and the commands it dispatches are, for
each code point of the text in source order: a raw-key-down event exactly when the
code point is a key of `keyCodeNames`, then one character event whose text is that
code point, carriage return standing in for line feed; nothing else is
dispatched. -/
theorem KeyAction_Do_sequence (v : String) (mods : List (List Modifier)) (h : FrameHandler)
    (tr : List Ev) (hok : h.NeverFails) :
    (KeyAction.Do ⟨v, mods.map KeyModifiers⟩ h tr).result = .nil ∧
      dispatched (KeyAction.Do ⟨v, mods.map KeyModifiers⟩ h tr).trace =
        dispatched tr ++ v.data.flatMap (fun r =>
          (match keyCodeNames (String.singleton r) with
            | some n =>
              [Command.keyEvent
                { Typ := KeyRawDown, Modifiers := modifierUnion mods.flatten, Text := "",
                  KeyIdentifier := if r = '\n' then "\r" else String.singleton r,
                  Key := n,
                  WindowsVirtualKeyCode := if r = '\n' then 13 else (r.toNat : Int),
                  NativeVirtualKeyCode := if r = '\n' then 13 else (r.toNat : Int),
                  IsSystemKey := true }]
            | none => []) ++
          [Command.keyEvent
            { Typ := KeyChar, Modifiers := modifierUnion mods.flatten,
              Text := if r = '\n' then "\r" else String.singleton r,
              KeyIdentifier := "", Key := "", WindowsVirtualKeyCode := 0,
              NativeVirtualKeyCode := 0, IsSystemKey := false }]) := by
  rw [KeyAction.Do_neverFails v mods h tr hok]
  exact ⟨rfl, by rw [dispatched_append, dispatched_flatMap_runeEvents]⟩

/-- C8 (witness): the text `"a\t"` typed with the shift modifier. -/
theorem KeyAction_Do_sequence_witness :
    (FrameHandler.always []).NeverFails ∧
      (KeyAction.Do ⟨"a\t", [[ModifierShift]].map KeyModifiers⟩ (FrameHandler.always []) []).result =
        .nil ∧
      dispatched
          (KeyAction.Do ⟨"a\t", [[ModifierShift]].map KeyModifiers⟩ (FrameHandler.always []) []).trace =
        [ Command.keyEvent
            { Typ := KeyChar, Modifiers := 8, Text := "a", KeyIdentifier := "", Key := "",
              WindowsVirtualKeyCode := 0, NativeVirtualKeyCode := 0, IsSystemKey := false },
          Command.keyEvent
            { Typ := KeyRawDown, Modifiers := 8, Text := "", KeyIdentifier := "\t", Key := "Tab",
              WindowsVirtualKeyCode := 9, NativeVirtualKeyCode := 9, IsSystemKey := true },
          Command.keyEvent
            { Typ := KeyChar, Modifiers := 8, Text := "\t", KeyIdentifier := "", Key := "",
              WindowsVirtualKeyCode := 0, NativeVirtualKeyCode := 0, IsSystemKey := false } ] :=
  ⟨FrameHandler.always_neverFails [],
    (KeyAction_Do_sequence "a\t" [[ModifierShift]] (FrameHandler.always []) []
      (FrameHandler.always_neverFails [])).1,
    (KeyAction_Do_sequence "a\t" [[ModifierShift]] (FrameHandler.always []) []
      (FrameHandler.always_neverFails [])).2⟩

/-- C9: line feed is never transmitted.  For every text, every list of
`KeyModifiers` options and every handler, no key event dispatched by `KeyAction.Do`
has a line-feed character in its text, its key identifier or its key name.  Against
a dispatcher that never fails, a line feed between the texts `pre` and `post` is
sent as a raw-key-down event with key `"Enter"` followed by a character event with
text `"\r"`, between the commands of `pre` and those of `post`.  The text `"a\n"`
is sent as exactly: character `"a"`, raw-key-down `"Enter"`, character `"\r"`. -/
theorem KeyAction_line_feed_as_carriage_return (v pre post : String)
    (mods : List (List Modifier)) (h : FrameHandler) (tr : List Ev) :
    (∃ new, (KeyAction.Do ⟨v, mods.map KeyModifiers⟩ h tr).trace = tr ++ new ∧
      ∀ p, Ev.dispatch (.keyEvent p) ∈ new →
        '\n' ∉ p.Text.data ∧ '\n' ∉ p.KeyIdentifier.data ∧ '\n' ∉ p.Key.data) ∧
      (h.NeverFails →
        dispatched (KeyAction.Do ⟨pre ++ "\n" ++ post, mods.map KeyModifiers⟩ h tr).trace =
          dispatched (KeyAction.Do ⟨pre, mods.map KeyModifiers⟩ h tr).trace ++
            [ Command.keyEvent
                { Typ := KeyRawDown, Modifiers := modifierUnion mods.flatten, Text := "",
                  KeyIdentifier := "\r", Key := "Enter", WindowsVirtualKeyCode := 13,
                  NativeVirtualKeyCode := 13, IsSystemKey := true },
              Command.keyEvent
                { Typ := KeyChar, Modifiers := modifierUnion mods.flatten, Text := "\r",
                  KeyIdentifier := "", Key := "", WindowsVirtualKeyCode := 0,
                  NativeVirtualKeyCode := 0, IsSystemKey := false } ] ++
            dispatched (KeyAction.Do ⟨post, mods.map KeyModifiers⟩ h []).trace) ∧
      dispatched (KeyAction.Do ⟨"a\n", []⟩ (FrameHandler.always []) []).trace =
        [ Command.keyEvent
            { Typ := KeyChar, Modifiers := 0, Text := "a", KeyIdentifier := "", Key := "",
              WindowsVirtualKeyCode := 0, NativeVirtualKeyCode := 0, IsSystemKey := false },
          Command.keyEvent
            { Typ := KeyRawDown, Modifiers := 0, Text := "", KeyIdentifier := "\r",
              Key := "Enter", WindowsVirtualKeyCode := 13, NativeVirtualKeyCode := 13,
              IsSystemKey := true },
          Command.keyEvent
            { Typ := KeyChar, Modifiers := 0, Text := "\r", KeyIdentifier := "", Key := "",
              WindowsVirtualKeyCode := 0, NativeVirtualKeyCode := 0, IsSystemKey := false } ] := by
  refine ⟨?_, ?_, by decide⟩
  · obtain ⟨new, hnew, hev⟩ := KeyAction.Do_events v mods h tr
    refine ⟨new, hnew, fun p hp => ?_⟩
    obtain ⟨r, -, hr⟩ := hev _ hp
    have hempty : '\n' ∉ ("" : String).data := by decide
    cases hk : keyCodeNames (String.singleton r) with
    | none =>
      simp [KeyAction.runeEvents, hk, DispatchKeyEvent] at hr
      subst hr
      exact ⟨sentText_no_lf r, hempty, hempty⟩
    | some n =>
      simp [KeyAction.runeEvents, hk, DispatchKeyEvent] at hr
      rcases hr with rfl | rfl
      · exact ⟨hempty, sentText_no_lf r, keyCodeNames_no_lf hk⟩
      · exact ⟨sentText_no_lf r, hempty, hempty⟩
  · intro hok
    have hlf : keyCodeNames (String.singleton '\n') = some "Enter" := by decide
    rw [KeyAction.Do_neverFails _ mods h tr hok, KeyAction.Do_neverFails _ mods h tr hok,
      KeyAction.Do_neverFails _ mods h [] hok]
    simp only [String.data_append, List.flatMap_append, dispatched_append,
      dispatched_flatMap_runeEvents, List.nil_append, List.append_assoc]
    have hd : ("\n" : String).data = ['\n'] := rfl
    simp [hd, List.flatMap_cons, hlf, dispatched]

/-- C9 (witness): the text `"x\ny"` against a handler that never fails. -/
theorem KeyAction_line_feed_as_carriage_return_witness :
    (FrameHandler.always []).NeverFails ∧
      dispatched (KeyAction.Do ⟨"x" ++ "\n" ++ "y", [[ModifierCtrl]].map KeyModifiers⟩
          (FrameHandler.always []) []).trace =
        dispatched (KeyAction.Do ⟨"x", [[ModifierCtrl]].map KeyModifiers⟩
            (FrameHandler.always []) []).trace ++
          [ Command.keyEvent
              { Typ := KeyRawDown, Modifiers := modifierUnion [[ModifierCtrl]].flatten, Text := "",
                KeyIdentifier := "\r", Key := "Enter", WindowsVirtualKeyCode := 13,
                NativeVirtualKeyCode := 13, IsSystemKey := true },
            Command.keyEvent
              { Typ := KeyChar, Modifiers := modifierUnion [[ModifierCtrl]].flatten, Text := "\r",
                KeyIdentifier := "", Key := "", WindowsVirtualKeyCode := 0,
                NativeVirtualKeyCode := 0, IsSystemKey := false } ] ++
          dispatched (KeyAction.Do ⟨"y", [[ModifierCtrl]].map KeyModifiers⟩
            (FrameHandler.always []) []).trace :=
  ⟨FrameHandler.always_neverFails [],
    (KeyAction_line_feed_as_carriage_return "x\ny" "x" "y" [[ModifierCtrl]]
      (FrameHandler.always []) []).2.1 (FrameHandler.always_neverFails [])⟩

/-- C10: for every text, every list of `KeyModifiers` options and every handler,
each raw-key-down event dispatched by `KeyAction.Do` belongs to a code point `r` of
the text that is a key of `keyCodeNames` and carries: key `keyCodeNames[r]`, native
and Windows virtual key code both the numeric value of `r` (13 for line feed), key
identifier the one-character text of `r` (`"\r"` for line feed), and the system-key
flag set.  Against a dispatcher that never fails, that event is dispatched for
every such code point of the text. -/
theorem KeyAction_raw_key_down_fields (v : String) (mods : List (List Modifier))
    (h : FrameHandler) (tr : List Ev) :
    ∃ new, (KeyAction.Do ⟨v, mods.map KeyModifiers⟩ h tr).trace = tr ++ new ∧
      (∀ p, Ev.dispatch (.keyEvent p) ∈ new → p.Typ = KeyRawDown →
        ∃ r ∈ v.data, ∃ n, keyCodeNames (String.singleton r) = some n ∧
          p.Key = n ∧
          p.NativeVirtualKeyCode = (if r = '\n' then 13 else (r.toNat : Int)) ∧
          p.WindowsVirtualKeyCode = (if r = '\n' then 13 else (r.toNat : Int)) ∧
          p.KeyIdentifier = (if r = '\n' then "\r" else String.singleton r) ∧
          p.IsSystemKey = true) ∧
      (h.NeverFails → ∀ r ∈ v.data, ∀ n, keyCodeNames (String.singleton r) = some n →
        Ev.dispatch (.keyEvent
          { Typ := KeyRawDown, Modifiers := modifierUnion mods.flatten, Text := "",
            KeyIdentifier := if r = '\n' then "\r" else String.singleton r,
            Key := n,
            WindowsVirtualKeyCode := if r = '\n' then 13 else (r.toNat : Int),
            NativeVirtualKeyCode := if r = '\n' then 13 else (r.toNat : Int),
            IsSystemKey := true }) ∈ new) := by
  obtain ⟨new, hnew, hev⟩ := KeyAction.Do_events v mods h tr
  refine ⟨new, hnew, fun p hp hT => ?_, fun hok r hr n hk => ?_⟩
  · obtain ⟨r, hrv, hr⟩ := hev _ hp
    have hne : KeyChar ≠ KeyRawDown := by decide
    cases hk : keyCodeNames (String.singleton r) with
    | none =>
      simp [KeyAction.runeEvents, hk, DispatchKeyEvent] at hr
      subst hr
      exact absurd hT hne
    | some n =>
      simp [KeyAction.runeEvents, hk, DispatchKeyEvent] at hr
      rcases hr with rfl | rfl
      · exact ⟨r, hrv, n, hk, rfl, rfl, rfl, rfl, rfl⟩
      · exact absurd hT hne
  · have hfull := KeyAction.Do_neverFails v mods h tr hok
    rw [hfull] at hnew
    have hnew2 : new = v.data.flatMap (KeyAction.runeEvents
        { DispatchKeyEvent KeyRawDown with Modifiers := modifierUnion mods.flatten }
        { DispatchKeyEvent KeyChar with Modifiers := modifierUnion mods.flatten }) :=
      (List.append_cancel_left hnew).symm
    rw [hnew2]
    refine List.mem_flatMap.mpr ⟨r, hr, ?_⟩
    simp [KeyAction.runeEvents, hk, DispatchKeyEvent]

/-- C10 (witness): the text `"\n"` is sent with a raw-key-down event of key `"Enter"`,
key codes 13, key identifier `"\r"` and the system-key flag. -/
theorem KeyAction_raw_key_down_fields_witness :
    (FrameHandler.always []).NeverFails ∧
      ∃ new, (KeyAction.Do ⟨"\n", [].map KeyModifiers⟩ (FrameHandler.always []) []).trace =
          [] ++ new ∧
        Ev.dispatch (.keyEvent
          { Typ := KeyRawDown, Modifiers := 0, Text := "", KeyIdentifier := "\r",
            Key := "Enter", WindowsVirtualKeyCode := 13, NativeVirtualKeyCode := 13,
            IsSystemKey := true }) ∈ new :=
  ⟨FrameHandler.always_neverFails [],
    (KeyAction_raw_key_down_fields "\n" [] (FrameHandler.always []) []).elim
      fun new hnew =>
        ⟨new, hnew.1,
          hnew.2.2 (FrameHandler.always_neverFails []) '\n' (by decide) "Enter" (by decide)⟩⟩

/-! ## Fail-fast execution -/

theorem runEvents_append (a b : List Ev) (h : FrameHandler) :
    ∀ tr, runEvents (a ++ b) h tr =
      match runEvents a h tr with
      | ⟨.nil, tr1⟩ => runEvents b h tr1
      | out => out := by
  induction a with
  | nil => intro tr; simp [runEvents]
  | cons ev rest ih =>
    intro tr
    cases ev with
    | dispatch c =>
      simp only [List.cons_append, runEvents]
      cases h.exec tr c with
      | none => exact ih _
      | some e => rfl
    | sleep ms =>
      simp only [List.cons_append, runEvents]
      exact ih _

theorem runEvents_neverFails (script : List Ev) (h : FrameHandler) (hok : h.NeverFails) :
    ∀ tr, runEvents script h tr = ⟨.nil, tr ++ script⟩ := by
  induction script with
  | nil => intro tr; simp [runEvents]
  | cons ev rest ih =>
    intro tr
    cases ev <;> simp [runEvents, hok _ _, ih, List.append_assoc]

theorem runEvents_first_failure (h : FrameHandler) (c : Command) (rest : List Ev) (e : Error) :
    ∀ (pre tr : List Ev),
      (∀ pre1 c1 rest1, pre = pre1 ++ Ev.dispatch c1 :: rest1 → h.exec (tr ++ pre1) c1 = none) →
      h.exec (tr ++ pre) c = some e →
      runEvents (pre ++ Ev.dispatch c :: rest) h tr = ⟨.fail e, tr ++ pre ++ [.dispatch c]⟩ := by
  intro pre
  induction pre with
  | nil =>
    intro tr _ hfail
    simp only [List.append_nil] at hfail
    simp [runEvents, hfail]
  | cons ev pre ih =>
    intro tr hbefore hfail
    have hbefore2 : ∀ pre1 c1 rest1, pre = pre1 ++ Ev.dispatch c1 :: rest1 →
        h.exec ((tr ++ [ev]) ++ pre1) c1 = none := by
      intro pre1 c1 rest1 hsplit
      have := hbefore (ev :: pre1) c1 rest1 (by simp [hsplit])
      simpa [List.append_assoc] using this
    have hfail2 : h.exec ((tr ++ [ev]) ++ pre) c = some e := by
      simpa [List.append_assoc] using hfail
    have hrec := ih (tr ++ [ev]) hbefore2 hfail2
    cases ev with
    | dispatch c0 =>
      have h0 : h.exec tr c0 = none := by
        have := hbefore [] c0 pre (by simp)
        simpa using this
      simp only [List.cons_append, runEvents, h0]
      refine Eq.trans hrec ?_
      simp [List.append_assoc]
    | sleep ms =>
      simp only [List.cons_append, runEvents]
      refine Eq.trans hrec ?_
      simp [List.append_assoc]

theorem runEvents_nil_or_first_failure (h : FrameHandler) :
    ∀ (script tr : List Ev),
      runEvents script h tr = ⟨.nil, tr ++ script⟩ ∨
      ∃ pre c rest e, script = pre ++ Ev.dispatch c :: rest ∧
        (∀ pre1 c1 rest1, pre = pre1 ++ Ev.dispatch c1 :: rest1 →
          h.exec (tr ++ pre1) c1 = none) ∧
        h.exec (tr ++ pre) c = some e := by
  intro script
  induction script with
  | nil => intro tr; left; simp [runEvents]
  | cons ev script ih =>
    intro tr
    have hcons : ∀ (hev : ∀ c0, ev = Ev.dispatch c0 → h.exec tr c0 = none),
        (runEvents script h (tr ++ [ev]) = ⟨.nil, tr ++ [ev] ++ script⟩ →
          runEvents (ev :: script) h tr = ⟨.nil, tr ++ ev :: script⟩) →
        runEvents (ev :: script) h tr = ⟨.nil, tr ++ ev :: script⟩ ∨
        ∃ pre c rest e, ev :: script = pre ++ Ev.dispatch c :: rest ∧
          (∀ pre1 c1 rest1, pre = pre1 ++ Ev.dispatch c1 :: rest1 →
            h.exec (tr ++ pre1) c1 = none) ∧
          h.exec (tr ++ pre) c = some e := by
      intro hev hrun
      rcases ih (tr ++ [ev]) with hnil | ⟨pre, c, rest, e, hsplit, hbefore, hfail⟩
      · exact Or.inl (hrun hnil)
      · refine Or.inr ⟨ev :: pre, c, rest, e, by simp [hsplit], ?_, by
          simpa [List.append_assoc] using hfail⟩
        intro pre1 c1 rest1 hs
        cases pre1 with
        | nil =>
          simp only [List.nil_append, List.cons.injEq] at hs
          simpa using hev c1 hs.1
        | cons ev1 pre1 =>
          simp only [List.cons_append, List.cons.injEq] at hs
          have := hbefore pre1 c1 rest1 hs.2
          rw [← hs.1]
          simpa [List.append_assoc] using this
    cases ev with
    | dispatch c0 =>
      cases h0 : h.exec tr c0 with
      | some e =>
        exact Or.inr ⟨[], c0, script, e, by simp, by simp, by simpa using h0⟩
      | none =>
        refine hcons (fun c1 hc1 => ?_) (fun hnil => ?_)
        · cases hc1; exact h0
        · simp only [runEvents, h0, hnil]
          simp [List.append_assoc]
    | sleep ms =>
      refine hcons (fun c1 hc1 => by cases hc1) (fun hnil => ?_)
      simp only [runEvents, hnil]
      simp [List.append_assoc]

theorem KeyAction.sendChar_eq_runEvents (keyP : DispatchKeyEventParams) (s : String)
    (h : FrameHandler) (tr : List Ev) :
    KeyAction.sendChar keyP s h tr =
      runEvents [.dispatch (.keyEvent { keyP with Text := s }), .sleep 100] h tr := by
  simp only [KeyAction.sendChar, Command.Do, runEvents, DispatchKeyEventParams.WithText]
  cases h.exec tr (.keyEvent { keyP with Text := s }) <;> simp [Result.ofError]

theorem KeyAction.iter_eq_runEvents (sysP keyP : DispatchKeyEventParams) (r : Char)
    (h : FrameHandler) (tr : List Ev) :
    KeyAction.iter sysP keyP r h tr = runEvents (KeyAction.runeEvents sysP keyP r) h tr := by
  cases hk : keyCodeNames (String.singleton r) with
  | none =>
    have hr := keyCodeNames_none_ne_lf r hk
    simp only [KeyAction.iter, KeyAction.runeEvents, hk, hr, if_false, List.nil_append]
    exact KeyAction.sendChar_eq_runEvents keyP _ h tr
  | some n =>
    simp only [KeyAction.iter, KeyAction.runeEvents, hk, sentText_eq, sentCode_eq, Command.Do,
      DispatchKeyEventParams.WithKey, DispatchKeyEventParams.WithNativeVirtualKeyCode,
      DispatchKeyEventParams.WithWindowsVirtualKeyCode,
      DispatchKeyEventParams.WithKeyIdentifier, DispatchKeyEventParams.WithIsSystemKey,
      List.cons_append, List.nil_append, runEvents]
    cases h.exec tr (.keyEvent
        { sysP with
          Key := n
          NativeVirtualKeyCode := if r = '\n' then 13 else (r.toNat : Int)
          WindowsVirtualKeyCode := if r = '\n' then 13 else (r.toNat : Int)
          KeyIdentifier := if r = '\n' then "\r" else String.singleton r
          IsSystemKey := true }) with
    | some e => simp [Result.ofError]
    | none =>
      simp only [Result.ofError]
      rw [KeyAction.sendChar_eq_runEvents]
      simp [runEvents]

theorem KeyAction.loop_eq_runEvents (sysP keyP : DispatchKeyEventParams) (rs : List Char)
    (h : FrameHandler) :
    ∀ tr, KeyAction.loop sysP keyP rs h tr =
      runEvents (rs.flatMap (KeyAction.runeEvents sysP keyP)) h tr := by
  induction rs with
  | nil => intro tr; simp [KeyAction.loop, runEvents]
  | cons r rest ih =>
    intro tr
    rw [List.flatMap_cons, runEvents_append, ← KeyAction.iter_eq_runEvents]
    simp only [KeyAction.loop]
    cases hit : KeyAction.iter sysP keyP r h tr with
    | mk res tr1 =>
      cases res with
      | nil => simp [ih]
      | fail e => simp
      | panicked => simp

theorem KeyAction.Do_eq_runEvents (ka : KeyAction) (h : FrameHandler) (tr : List Ev) :
    KeyAction.Do ka h tr =
      runEvents (KeyAction.Do ka (FrameHandler.always []) []).trace h tr := by
  have hfree : (KeyAction.Do ka (FrameHandler.always []) []).trace =
      ka.v.data.flatMap (KeyAction.runeEvents
        (ka.opts.foldl (fun p o => o p) (DispatchKeyEvent KeyRawDown))
        (ka.opts.foldl (fun p o => o p) (DispatchKeyEvent KeyChar))) := by
    simp [KeyAction.Do, KeyAction.loop_neverFails _ _ _ _ (FrameHandler.always_neverFails [])]
  rw [hfree]
  exact KeyAction.loop_eq_runEvents _ _ _ h tr

theorem dispatched_take_of_split (full pre rest : List Ev) (c : Command)
    (hsplit : full = pre ++ Ev.dispatch c :: rest) :
    (dispatched full).take ((dispatched pre).length + 1) = dispatched pre ++ [c] ∧
      (dispatched full).take (dispatched pre).length = dispatched pre := by
  subst hsplit
  have hd : dispatched (pre ++ Ev.dispatch c :: rest) =
      (dispatched pre ++ [c]) ++ dispatched rest := by
    simp [dispatched_append, dispatched]
  constructor
  · rw [hd]
    exact List.take_left' (by simp)
  · rw [dispatched_append]
    exact List.take_left _ _

/-- C11: let `pre ++ c :: rest` be the events of the failure-free run of `KeyAction.Do`,
so that `c` is its k-th command, k - 1 being the number of commands in `pre`.  If in
a run against the handler `h` the commands of `pre` all succeed and `c` fails with
`e`, then `KeyAction.Do` returns exactly `e`, its trace ends with `c` (no command is
dispatched after it: neither the character event of the same code point nor any
event of a later code point), and the commands it dispatched are exactly the first
k commands of the failure-free run, those before `c` being its first k - 1. -/
theorem KeyAction_Do_first_failure (ka : KeyAction) (h : FrameHandler) (tr pre rest : List Ev)
    (c : Command) (e : Error)
    (hrun : (KeyAction.Do ka (FrameHandler.always []) []).trace = pre ++ Ev.dispatch c :: rest)
    (hbefore : ∀ pre1 c1 rest1, pre = pre1 ++ Ev.dispatch c1 :: rest1 →
      h.exec (tr ++ pre1) c1 = none)
    (hfail : h.exec (tr ++ pre) c = some e) :
    KeyAction.Do ka h tr = ⟨.fail e, tr ++ pre ++ [.dispatch c]⟩ ∧
      dispatched (KeyAction.Do ka h tr).trace =
        dispatched tr ++
          (dispatched (KeyAction.Do ka (FrameHandler.always []) []).trace).take
            ((dispatched pre).length + 1) ∧
      dispatched pre =
        (dispatched (KeyAction.Do ka (FrameHandler.always []) []).trace).take
          (dispatched pre).length := by
  have hdo : KeyAction.Do ka h tr = ⟨.fail e, tr ++ pre ++ [.dispatch c]⟩ := by
    rw [KeyAction.Do_eq_runEvents, hrun]
    exact runEvents_first_failure h c rest e pre tr hbefore hfail
  have htake := dispatched_take_of_split _ pre rest c hrun
  refine ⟨hdo, ?_, htake.2.symm⟩
  rw [hdo, htake.1]
  simp [dispatched_append, dispatched]

/-- Every run of `KeyAction.Do` either plays the whole failure-free run and returns
`nil`, or has a first failing command: one whose reply fails after the commands
before it in the failure-free run all succeeded. -/
theorem KeyAction.Do_nil_or_first_failure (ka : KeyAction) (h : FrameHandler) (tr : List Ev) :
    KeyAction.Do ka h tr =
        ⟨.nil, tr ++ (KeyAction.Do ka (FrameHandler.always []) []).trace⟩ ∨
      ∃ pre c rest e,
        (KeyAction.Do ka (FrameHandler.always []) []).trace = pre ++ Ev.dispatch c :: rest ∧
        (∀ pre1 c1 rest1, pre = pre1 ++ Ev.dispatch c1 :: rest1 →
          h.exec (tr ++ pre1) c1 = none) ∧
        h.exec (tr ++ pre) c = some e := by
  rw [KeyAction.Do_eq_runEvents]
  exact runEvents_nil_or_first_failure h _ tr

/-- C11 (witness): the text `"a\n"` against a handler that fails the raw-key-down
event of the line feed with `ErrChannelClosed`: the run stops there, after the
character event of `a` and its pause. -/
theorem KeyAction_Do_first_failure_witness :
    (KeyAction.Do ⟨"a\n", []⟩ (FrameHandler.always []) []).trace =
        [ Ev.dispatch (.keyEvent
          { Typ := KeyChar, Modifiers := 0, Text := "a", KeyIdentifier := "", Key := "",
            WindowsVirtualKeyCode := 0, NativeVirtualKeyCode := 0, IsSystemKey := false }),
          Ev.sleep 100 ] ++
        Ev.dispatch (.keyEvent
          { Typ := KeyRawDown, Modifiers := 0, Text := "", KeyIdentifier := "\r", Key := "Enter",
            WindowsVirtualKeyCode := 13, NativeVirtualKeyCode := 13, IsSystemKey := true }) ::
        [ Ev.dispatch (.keyEvent
          { Typ := KeyChar, Modifiers := 0, Text := "\r", KeyIdentifier := "", Key := "",
            WindowsVirtualKeyCode := 0, NativeVirtualKeyCode := 0, IsSystemKey := false }),
          Ev.sleep 100 ] ∧
      (FrameHandler.failingOn (.keyEvent
          { Typ := KeyRawDown, Modifiers := 0, Text := "", KeyIdentifier := "\r", Key := "Enter",
            WindowsVirtualKeyCode := 13, NativeVirtualKeyCode := 13, IsSystemKey := true })
          .ErrChannelClosed []).exec
        ([] ++ [ Ev.dispatch (.keyEvent
          { Typ := KeyChar, Modifiers := 0, Text := "a", KeyIdentifier := "", Key := "",
            WindowsVirtualKeyCode := 0, NativeVirtualKeyCode := 0, IsSystemKey := false }),
          Ev.sleep 100 ])
        (.keyEvent
          { Typ := KeyRawDown, Modifiers := 0, Text := "", KeyIdentifier := "\r", Key := "Enter",
            WindowsVirtualKeyCode := 13, NativeVirtualKeyCode := 13, IsSystemKey := true }) = some .ErrChannelClosed ∧
      KeyAction.Do ⟨"a\n", []⟩
          (FrameHandler.failingOn (.keyEvent
          { Typ := KeyRawDown, Modifiers := 0, Text := "", KeyIdentifier := "\r", Key := "Enter",
            WindowsVirtualKeyCode := 13, NativeVirtualKeyCode := 13, IsSystemKey := true })
          .ErrChannelClosed []) [] =
        ⟨.fail .ErrChannelClosed,
          [] ++ [ Ev.dispatch (.keyEvent
          { Typ := KeyChar, Modifiers := 0, Text := "a", KeyIdentifier := "", Key := "",
            WindowsVirtualKeyCode := 0, NativeVirtualKeyCode := 0, IsSystemKey := false }),
          Ev.sleep 100 ] ++
          [ Ev.dispatch (.keyEvent
          { Typ := KeyRawDown, Modifiers := 0, Text := "", KeyIdentifier := "\r", Key := "Enter",
            WindowsVirtualKeyCode := 13, NativeVirtualKeyCode := 13, IsSystemKey := true }) ]⟩ :=
  ⟨by decide, by decide,
    (KeyAction_Do_first_failure ⟨"a\n", []⟩
      (FrameHandler.failingOn (.keyEvent
          { Typ := KeyRawDown, Modifiers := 0, Text := "", KeyIdentifier := "\r", Key := "Enter",
            WindowsVirtualKeyCode := 13, NativeVirtualKeyCode := 13, IsSystemKey := true })
          .ErrChannelClosed []) []
      [ Ev.dispatch (.keyEvent
          { Typ := KeyChar, Modifiers := 0, Text := "a", KeyIdentifier := "", Key := "",
            WindowsVirtualKeyCode := 0, NativeVirtualKeyCode := 0, IsSystemKey := false }),
        Ev.sleep 100 ]
      [ Ev.dispatch (.keyEvent
          { Typ := KeyChar, Modifiers := 0, Text := "\r", KeyIdentifier := "", Key := "",
            WindowsVirtualKeyCode := 0, NativeVirtualKeyCode := 0, IsSystemKey := false }),
        Ev.sleep 100 ]
      (.keyEvent
          { Typ := KeyRawDown, Modifiers := 0, Text := "", KeyIdentifier := "\r", Key := "Enter",
            WindowsVirtualKeyCode := 13, NativeVirtualKeyCode := 13, IsSystemKey := true })
      .ErrChannelClosed
      (by decide)
      (by
        intro pre1 c1 rest1 hs
        rcases pre1 with _ | ⟨x, _ | ⟨y, pre1⟩⟩
        · simp only [List.nil_append, List.cons.injEq, Ev.dispatch.injEq] at hs
          rw [← hs.1]
          decide
        · simp at hs
        · simp at hs)
      (by decide)).1⟩

/-! ## Task sequences -/

theorem Tasks_of_not_nil (a : Action) (post : List Action) (h : FrameHandler) (tr : List Ev)
    (hfail : (a h tr).result ≠ .nil) : Tasks (a :: post) h tr = a h tr := by
  simp only [Tasks]
  cases hout : a h tr with
  | mk res tr1 =>
    cases res with
    | nil => rw [hout] at hfail; exact absurd rfl hfail
    | fail e => rfl
    | panicked => rfl

theorem Tasks_of_nil (a : Action) (post : List Action) (h : FrameHandler) (tr tr1 : List Ev)
    (hok : a h tr = ⟨.nil, tr1⟩) : Tasks (a :: post) h tr = Tasks post h tr1 := by
  simp only [Tasks, hok]

theorem Tasks_map_Do_eq_runEvents (cs : List Command) (h : FrameHandler) :
    ∀ tr, Tasks (cs.map Command.Do) h tr = runEvents (cs.map Ev.dispatch) h tr := by
  induction cs with
  | nil => intro tr; simp [Tasks, runEvents]
  | cons c rest ih =>
    intro tr
    simp only [List.map_cons, Tasks, runEvents, Command.Do]
    cases h.exec tr c with
    | none => simpa [Result.ofError] using ih _
    | some e => simp [Result.ofError]

/-- C12: a task sequence whose actions before the k-th all return `nil` when run one
after another from the trace `tr`, leaving the trace `tr1`, and whose k-th action
`a` does not return `nil` on `tr1`, returns exactly the outcome of `a` on `tr1`:
the failure of `a` and the trace `a` leaves, whatever the actions `post` after it
are, none of which is run.  If all the actions return `nil`, leaving `tr1`, the
sequence returns `nil` with the trace `tr1`.  For a sequence of commands the trace
shows the order: the commands are dispatched in list order up to the first failing
one. -/
theorem Tasks_fail_fast (pre post all : List Action) (a : Action) (cs : List Command)
    (h : FrameHandler) (tr tr1 : List Ev) :
    (RunsOk h pre tr tr1 → (a h tr1).result ≠ .nil →
      Tasks (pre ++ a :: post) h tr = a h tr1) ∧
      (RunsOk h all tr tr1 → Tasks all h tr = ⟨.nil, tr1⟩) ∧
      (Tasks (cs.map Command.Do) h tr = ⟨.nil, tr ++ cs.map Ev.dispatch⟩ ∨
        ∃ before c after e, cs = before ++ c :: after ∧
          Tasks (cs.map Command.Do) h tr =
            ⟨.fail e, tr ++ before.map Ev.dispatch ++ [.dispatch c]⟩) := by
  refine ⟨?_, ?_, ?_⟩
  · intro hpre hfail
    induction hpre with
    | done tr0 => exact Tasks_of_not_nil a post h tr0 hfail
    | step a0 rest0 t0 t1 t2 h0 _ ih =>
      rw [List.cons_append, Tasks_of_nil a0 _ h t0 t1 h0]
      exact ih hfail
  · intro hall
    induction hall with
    | done tr0 => rfl
    | step a0 rest0 t0 t1 t2 h0 _ ih => rw [Tasks_of_nil a0 _ h t0 t1 h0]; exact ih
  · rw [Tasks_map_Do_eq_runEvents]
    rcases runEvents_nil_or_first_failure h (cs.map Ev.dispatch) tr with hnil |
      ⟨pre1, c, rest1, e, hsplit, hbefore, hfail⟩
    · exact Or.inl hnil
    · right
      obtain ⟨before, tail, hcs, hb, ht⟩ := List.map_eq_append_iff.mp hsplit
      obtain ⟨c2, after, htail, hc2, _⟩ := List.map_eq_cons_iff.mp ht
      cases hc2
      refine ⟨before, c, after, e, by rw [hcs, htail], ?_⟩
      rw [hsplit, runEvents_first_failure h c rest1 e pre1 tr hbefore hfail, hb]

/-- C12 (witness): of the three commands focus 1, geometry query 2, focus 3, the second
fails with `ErrContextDone`: the sequence returns that failure after the first two
commands, and the third is never dispatched. -/
theorem Tasks_fail_fast_witness :
    RunsOk (FrameHandler.failingOn (.getBoxModel 2) .ErrContextDone []) [(Command.focus 1).Do] []
        [.dispatch (.focus 1)] ∧
      ((Command.getBoxModel 2).Do (FrameHandler.failingOn (.getBoxModel 2) .ErrContextDone [])
        [.dispatch (.focus 1)]).result ≠ .nil ∧
      Tasks ([(Command.focus 1).Do] ++ (Command.getBoxModel 2).Do :: [(Command.focus 3).Do])
          (FrameHandler.failingOn (.getBoxModel 2) .ErrContextDone []) [] =
        ⟨.fail .ErrContextDone, [.dispatch (.focus 1), .dispatch (.getBoxModel 2)]⟩ :=
  ⟨RunsOk.step _ _ [] _ _ rfl (RunsOk.done _), by decide,
    (Tasks_fail_fast [(Command.focus 1).Do] [(Command.focus 3).Do] [] (Command.getBoxModel 2).Do []
      (FrameHandler.failingOn (.getBoxModel 2) .ErrContextDone []) [] [.dispatch (.focus 1)]).1
      (RunsOk.step _ _ [] _ _ rfl (RunsOk.done _)) (by decide)⟩

/-! ## Typing into an element -/

theorem Tasks_singleton (a : Action) (h : FrameHandler) (tr : List Ev) :
    Tasks [a] h tr = a h tr := by
  simp only [Tasks]
  cases hout : a h tr with
  | mk res tr1 => cases res <;> rfl

theorem MouseActionNode_cases (n : NodeID) (opts : List MouseOption) (h : FrameHandler)
    (tr : List Ev) :
    (∃ e, MouseActionNode n opts h tr = ⟨.fail e, tr ++ [.dispatch (.getBoxModel n)]⟩) ∨
      MouseActionNode n opts h tr = ⟨.panicked, tr ++ [.dispatch (.getBoxModel n)]⟩ ∨
      ∃ x y, MouseActionNode n opts h tr =
        MouseClickXY x y opts h (tr ++ [.dispatch (.getBoxModel n)]) := by
  unfold MouseActionNode GetBoxModel
  cases h.exec tr (.getBoxModel n) with
  | some e => exact Or.inl ⟨e, rfl⟩
  | none =>
    simp only
    by_cases hodd : (h.box tr n).Content.length % 2 ≠ 0
    · exact Or.inl ⟨.ErrInvalidDimensions, by simp [hodd]⟩
    · by_cases hzero : (h.box tr n).Content.length / 2 = 0
      · exact Or.inr (Or.inl (by simp [hodd, hzero]))
      · exact Or.inr (Or.inr
          ⟨Int.tdiv (sumContent (h.box tr n).Content (0, 0)).1
              (((h.box tr n).Content.length / 2 : Nat) : Int),
            Int.tdiv (sumContent (h.box tr n).Content (0, 0)).2
              (((h.box tr n).Content.length / 2 : Nat) : Int),
            by simp only [hodd, hzero, if_false]⟩)

theorem MouseAction_defaults (typ : MouseType) (x y : Int) :
    MouseAction typ x y ([] ++ [Button ButtonLeft, ClickCount 1]) =
      { Typ := typ, X := x, Y := y, Modifiers := ModifierNone, Button := ButtonLeft,
        ClickCount := 1 } := by
  simp [MouseAction, DispatchMouseEvent, Button, ClickCount, ModifierNone,
    DispatchMouseEventParams.WithButton, DispatchMouseEventParams.WithClickCount]

theorem MouseActionNode_nil (n : NodeID) (h : FrameHandler) (tr : List Ev)
    (hnil : (MouseActionNode n [] h tr).result = .nil) :
    ∃ x y : Int,
      MouseActionNode n [] h tr =
        ⟨.nil, tr ++
          [ .dispatch (.getBoxModel n),
            .dispatch (.mouseEvent { Typ := MousePressed, X := x, Y := y,
                                     Modifiers := ModifierNone, Button := ButtonLeft,
                                     ClickCount := 1 }),
            .dispatch (.mouseEvent { Typ := MouseReleased, X := x, Y := y,
                                     Modifiers := ModifierNone, Button := ButtonLeft,
                                     ClickCount := 1 }) ]⟩ := by
  rcases MouseActionNode_cases n [] h tr with ⟨e, hc⟩ | hc | ⟨x, y, hc⟩
  · rw [hc] at hnil; cases hnil
  · rw [hc] at hnil; cases hnil
  · rw [hc] at hnil ⊢
    rcases MouseClickXY_cases x y [] h (tr ++ [.dispatch (.getBoxModel n)]) with
      hm | ⟨e, hm⟩ | ⟨e, hm⟩
    · refine ⟨x, y, ?_⟩
      rw [hm, MouseAction_defaults, MouseAction_defaults]
      simp [List.append_assoc]
    · rw [hm] at hnil; cases hnil
    · rw [hm] at hnil; cases hnil

theorem MouseActionNode_events (n : NodeID) (opts : List MouseOption) (h : FrameHandler)
    (tr : List Ev) :
    ∃ new, (MouseActionNode n opts h tr).trace = tr ++ .dispatch (.getBoxModel n) :: new ∧
      ∀ ev ∈ new, ∃ p, ev = .dispatch (.mouseEvent p) := by
  rcases MouseActionNode_cases n opts h tr with ⟨e, hc⟩ | hc | ⟨x, y, hc⟩
  · exact ⟨[], by simp [hc], by simp⟩
  · exact ⟨[], by simp [hc], by simp⟩
  · rw [hc]
    rcases MouseClickXY_cases x y opts h (tr ++ [.dispatch (.getBoxModel n)]) with
      hm | ⟨e, hm⟩ | ⟨e, hm⟩ <;> rw [hm]
    · exact ⟨[.dispatch (.mouseEvent _), .dispatch (.mouseEvent _)],
        by rw [List.append_assoc]; rfl, by simp⟩
    · exact ⟨[.dispatch (.mouseEvent _)], by rw [List.append_assoc]; rfl, by simp⟩
    · exact ⟨[.dispatch (.mouseEvent _), .dispatch (.mouseEvent _)],
        by rw [List.append_assoc]; rfl, by simp⟩

theorem KeyAction.Do_key_events (ka : KeyAction) (h : FrameHandler) (tr : List Ev) :
    ∃ keys, (KeyAction.Do ka h tr).trace = tr ++ keys ∧
      ∀ ev ∈ keys, (∃ p, ev = .dispatch (.keyEvent p)) ∨ ev = .sleep 100 := by
  obtain ⟨new, hnew, hev⟩ := KeyAction.loop_events
    (ka.opts.foldl (fun p o => o p) (DispatchKeyEvent KeyRawDown))
    (ka.opts.foldl (fun p o => o p) (DispatchKeyEvent KeyChar)) ka.v.data h tr
  refine ⟨new, hnew, fun ev hmem => ?_⟩
  obtain ⟨r, -, hr⟩ := hev ev hmem
  cases hk : keyCodeNames (String.singleton r) <;>
    simp only [KeyAction.runeEvents, hk, List.nil_append, List.cons_append, List.mem_cons,
      List.mem_singleton, List.not_mem_nil, or_false] at hr
  · rcases hr with rfl | rfl
    · exact Or.inl ⟨_, rfl⟩
    · exact Or.inr rfl
  · rcases hr with rfl | rfl | rfl
    · exact Or.inl ⟨_, rfl⟩
    · exact Or.inl ⟨_, rfl⟩
    · exact Or.inr rfl

/-- C13: `KeyActionNode(n, v, opts)` first dispatches the focus command on `n`; if it
fails the run ends with that failure.  Otherwise the centered click on `n` runs; if
it does not return `nil` the run ends with the click's outcome, having dispatched
after the focus only the geometry query and mouse events.  Otherwise the trace is
focus, geometry query, press, release, and `v` is typed with `opts` from there: all
that follows is key events and pauses.  Hence a key event is dispatched only if the
focus and the click both succeeded. -/
theorem KeyActionNode_order (n : NodeID) (v : String) (opts : List KeyOption)
    (h : FrameHandler) (tr : List Ev) :
    (∀ e, h.exec tr (.focus n) = some e →
      KeyActionNode n v opts h tr = ⟨.fail e, tr ++ [.dispatch (.focus n)]⟩) ∧
    (h.exec tr (.focus n) = none →
      (MouseActionNode n [] h (tr ++ [.dispatch (.focus n)])).result ≠ .nil →
      KeyActionNode n v opts h tr = MouseActionNode n [] h (tr ++ [.dispatch (.focus n)]) ∧
        ∃ new, (KeyActionNode n v opts h tr).trace =
            tr ++ .dispatch (.focus n) :: .dispatch (.getBoxModel n) :: new ∧
          ∀ ev ∈ new, ∃ p, ev = .dispatch (.mouseEvent p)) ∧
    (h.exec tr (.focus n) = none →
      (MouseActionNode n [] h (tr ++ [.dispatch (.focus n)])).result = .nil →
      ∃ (x y : Int) (keys : List Ev),
        KeyActionNode n v opts h tr =
            KeyAction.Do ⟨v, opts⟩ h
              (tr ++
                [ .dispatch (.focus n), .dispatch (.getBoxModel n),
                  .dispatch (.mouseEvent { Typ := MousePressed, X := x, Y := y,
                                           Modifiers := ModifierNone, Button := ButtonLeft,
                                           ClickCount := 1 }),
                  .dispatch (.mouseEvent { Typ := MouseReleased, X := x, Y := y,
                                           Modifiers := ModifierNone, Button := ButtonLeft,
                                           ClickCount := 1 }) ]) ∧
          (KeyActionNode n v opts h tr).trace =
            tr ++
              [ .dispatch (.focus n), .dispatch (.getBoxModel n),
                .dispatch (.mouseEvent { Typ := MousePressed, X := x, Y := y,
                                         Modifiers := ModifierNone, Button := ButtonLeft,
                                         ClickCount := 1 }),
                .dispatch (.mouseEvent { Typ := MouseReleased, X := x, Y := y,
                                         Modifiers := ModifierNone, Button := ButtonLeft,
                                         ClickCount := 1 }) ] ++ keys ∧
          ∀ ev ∈ keys, (∃ p, ev = .dispatch (.keyEvent p)) ∨ ev = .sleep 100) ∧
    (∀ p, Ev.dispatch (.keyEvent p) ∈ (KeyActionNode n v opts h tr).trace.drop tr.length →
      h.exec tr (.focus n) = none ∧
        (MouseActionNode n [] h (tr ++ [.dispatch (.focus n)])).result = .nil) := by
  have hfocus_fail : ∀ e, h.exec tr (.focus n) = some e →
      KeyActionNode n v opts h tr = ⟨.fail e, tr ++ [.dispatch (.focus n)]⟩ := by
    intro e he
    unfold KeyActionNode
    rw [Tasks_of_not_nil _ _ h tr (by simp [Command.Do, he, Result.ofError])]
    simp [Command.Do, he, Result.ofError]
  have hclick : h.exec tr (.focus n) = none →
      KeyActionNode n v opts h tr =
        Tasks [MouseActionNode n [], KeyAction.Do ⟨v, opts⟩] h (tr ++ [.dispatch (.focus n)]) := by
    intro hf
    unfold KeyActionNode
    exact Tasks_of_nil _ _ h tr _ (by simp [Command.Do, hf, Result.ofError])
  have hclick_fail : h.exec tr (.focus n) = none →
      (MouseActionNode n [] h (tr ++ [.dispatch (.focus n)])).result ≠ .nil →
      KeyActionNode n v opts h tr = MouseActionNode n [] h (tr ++ [.dispatch (.focus n)]) := by
    intro hf hm
    rw [hclick hf, Tasks_of_not_nil _ _ h _ hm]
  refine ⟨hfocus_fail, ?_, ?_, ?_⟩
  · intro hf hm
    refine ⟨hclick_fail hf hm, ?_⟩
    rw [hclick_fail hf hm]
    obtain ⟨new, hnew, hev⟩ := MouseActionNode_events n [] h (tr ++ [.dispatch (.focus n)])
    exact ⟨new, by rw [hnew]; simp, hev⟩
  · intro hf hm
    obtain ⟨x, y, hxy⟩ := MouseActionNode_nil n h (tr ++ [.dispatch (.focus n)]) hm
    have hdo : KeyActionNode n v opts h tr =
        KeyAction.Do ⟨v, opts⟩ h
          (tr ++
            [ .dispatch (.focus n), .dispatch (.getBoxModel n),
              .dispatch (.mouseEvent { Typ := MousePressed, X := x, Y := y,
                                       Modifiers := ModifierNone, Button := ButtonLeft,
                                       ClickCount := 1 }),
              .dispatch (.mouseEvent { Typ := MouseReleased, X := x, Y := y,
                                       Modifiers := ModifierNone, Button := ButtonLeft,
                                       ClickCount := 1 }) ]) := by
      rw [hclick hf, Tasks_of_nil _ _ h _ _ hxy, Tasks_singleton]
      simp [List.append_assoc]
    obtain ⟨keys, hkeys, hev⟩ := KeyAction.Do_key_events ⟨v, opts⟩ h
      (tr ++
        [ .dispatch (.focus n), .dispatch (.getBoxModel n),
          .dispatch (.mouseEvent { Typ := MousePressed, X := x, Y := y,
                                   Modifiers := ModifierNone, Button := ButtonLeft,
                                   ClickCount := 1 }),
          .dispatch (.mouseEvent { Typ := MouseReleased, X := x, Y := y,
                                   Modifiers := ModifierNone, Button := ButtonLeft,
                                   ClickCount := 1 }) ])
    exact ⟨x, y, keys, hdo, by rw [hdo, hkeys], hev⟩
  · intro p hp
    cases hf : h.exec tr (.focus n) with
    | some e =>
      rw [hfocus_fail e hf] at hp
      simp at hp
    | none =>
      refine ⟨rfl, ?_⟩
      by_contra hm
      rw [hclick_fail hf hm] at hp
      obtain ⟨new, hnew, hev⟩ := MouseActionNode_events n [] h (tr ++ [.dispatch (.focus n)])
      rw [hnew] at hp
      simp only [List.append_assoc, List.singleton_append, List.drop_left, List.mem_cons,
        Ev.dispatch.injEq, reduceCtorEq, false_or] at hp
      obtain ⟨q, hq⟩ := hev _ hp
      cases hq

set_option maxRecDepth 8192 in
/-- C13 (witness): typing `"a"` into node 1 whose content quad is
`[0,0,10,0,10,10,0,10]`, against a handler that never fails: focus, geometry query,
press and release at `(5,5)`, then the character event and its pause. -/
theorem KeyActionNode_order_witness :
    (FrameHandler.always [0, 0, 10, 0, 10, 10, 0, 10]).exec [] (.focus 1) = none ∧
      (MouseActionNode 1 [] (FrameHandler.always [0, 0, 10, 0, 10, 10, 0, 10])
        ([] ++ [.dispatch (.focus 1)])).result = .nil ∧
      (KeyActionNode 1 "a" [] (FrameHandler.always [0, 0, 10, 0, 10, 10, 0, 10]) []).trace =
        [ .dispatch (.focus 1), .dispatch (.getBoxModel 1),
          .dispatch (.mouseEvent { Typ := MousePressed, X := 5, Y := 5,
                                   Modifiers := ModifierNone, Button := ButtonLeft,
                                   ClickCount := 1 }),
          .dispatch (.mouseEvent { Typ := MouseReleased, X := 5, Y := 5,
                                   Modifiers := ModifierNone, Button := ButtonLeft,
                                   ClickCount := 1 }),
          .dispatch (.keyEvent
            { Typ := KeyChar, Modifiers := 0, Text := "a", KeyIdentifier := "", Key := "",
              WindowsVirtualKeyCode := 0, NativeVirtualKeyCode := 0, IsSystemKey := false }),
          .sleep 100 ] ∧
      ∃ (x y : Int) (keys : List Ev),
        KeyActionNode 1 "a" [] (FrameHandler.always [0, 0, 10, 0, 10, 10, 0, 10]) [] =
            KeyAction.Do ⟨"a", []⟩ (FrameHandler.always [0, 0, 10, 0, 10, 10, 0, 10])
              ([] ++
                [ .dispatch (.focus 1), .dispatch (.getBoxModel 1),
                  .dispatch (.mouseEvent { Typ := MousePressed, X := x, Y := y,
                                           Modifiers := ModifierNone, Button := ButtonLeft,
                                           ClickCount := 1 }),
                  .dispatch (.mouseEvent { Typ := MouseReleased, X := x, Y := y,
                                           Modifiers := ModifierNone, Button := ButtonLeft,
                                           ClickCount := 1 }) ]) ∧
          (KeyActionNode 1 "a" [] (FrameHandler.always [0, 0, 10, 0, 10, 10, 0, 10]) []).trace =
            [] ++
              [ .dispatch (.focus 1), .dispatch (.getBoxModel 1),
                .dispatch (.mouseEvent { Typ := MousePressed, X := x, Y := y,
                                         Modifiers := ModifierNone, Button := ButtonLeft,
                                         ClickCount := 1 }),
                .dispatch (.mouseEvent { Typ := MouseReleased, X := x, Y := y,
                                         Modifiers := ModifierNone, Button := ButtonLeft,
                                         ClickCount := 1 }) ] ++ keys ∧
          ∀ ev ∈ keys, (∃ p, ev = .dispatch (.keyEvent p)) ∨ ev = .sleep 100 :=
  ⟨rfl, by decide, by decide,
    (KeyActionNode_order 1 "a" [] (FrameHandler.always [0, 0, 10, 0, 10, 10, 0, 10]) []).2.2.1
      rfl (by decide)⟩

/-! ## Awaiting a reply (`storage.go`) -/

/-- C14: when marshalling succeeds and the `select` fires on the reply slot with the
value `res`, `ClearDataForOriginParams.Do` returns: `nil` for a raw payload,
`ErrChannelClosed` for the nil value of a closed slot, the very same error for an
error value, and `ErrUnknownResult` for any other value. -/
theorem ClearDataForOriginParams_Do_reply (p : ClearDataForOriginParams)
    (marshal : ClearDataForOriginParams → Except Error String) (wait : String → SelectCase)
    (buf : String) (res : ReplyValue)
    (hm : marshal p = .ok buf) (hw : wait buf = .reply res) :
    (∀ raw, res = .rawMessage raw → p.Do marshal wait = none) ∧
      (res = .nilValue → p.Do marshal wait = some .ErrChannelClosed) ∧
      (∀ v, res = .error v → p.Do marshal wait = some v) ∧
      (∀ tag, res = .other tag → p.Do marshal wait = some .ErrUnknownResult) := by
  refine ⟨?_, ?_, ?_, ?_⟩
  · rintro raw rfl
    simp [ClearDataForOriginParams.Do, hm, hw]
  · rintro rfl
    simp [ClearDataForOriginParams.Do, hm, hw]
  · rintro v rfl
    simp [ClearDataForOriginParams.Do, hm, hw]
  · rintro tag rfl
    simp [ClearDataForOriginParams.Do, hm, hw]

/-- C14 (witness): the four kinds of reply for the origin `"https://example.org"`. -/
theorem ClearDataForOriginParams_Do_reply_witness :
    (ClearDataForOrigin "https://example.org" "cookies").Do (fun _ => .ok "buf")
        (fun _ => .reply (.rawMessage "")) = none ∧
      (ClearDataForOrigin "https://example.org" "cookies").Do (fun _ => .ok "buf")
        (fun _ => .reply .nilValue) = some .ErrChannelClosed ∧
      (ClearDataForOrigin "https://example.org" "cookies").Do (fun _ => .ok "buf")
        (fun _ => .reply (.error (.remote "denied"))) = some (.remote "denied") ∧
      (ClearDataForOrigin "https://example.org" "cookies").Do (fun _ => .ok "buf")
        (fun _ => .reply (.other "int")) = some .ErrUnknownResult :=
  ⟨(ClearDataForOriginParams_Do_reply _ (fun _ => .ok "buf") (fun _ => .reply (.rawMessage ""))
      "buf" _ rfl rfl).1 "" rfl,
    (ClearDataForOriginParams_Do_reply _ (fun _ => .ok "buf") (fun _ => .reply .nilValue)
      "buf" _ rfl rfl).2.1 rfl,
    (ClearDataForOriginParams_Do_reply _ (fun _ => .ok "buf")
      (fun _ => .reply (.error (.remote "denied"))) "buf" _ rfl rfl).2.2.1 _ rfl,
    (ClearDataForOriginParams_Do_reply _ (fun _ => .ok "buf") (fun _ => .reply (.other "int"))
      "buf" _ rfl rfl).2.2.2 "int" rfl⟩

theorem SelectCase.CanFire.inv {ctxDone : Bool} {slot : Option ReplyValue} {c : SelectCase}
    (hfire : SelectCase.CanFire ctxDone slot c) :
    (∃ res, slot = some res ∧ c = .reply res) ∨ (ctxDone = true ∧ c = .ctxDone) := by
  cases hfire with
  | reply res hres => exact Or.inl ⟨res, hres, rfl⟩
  | done hd => exact Or.inr ⟨hd, rfl⟩

/-- C15 (the claim as stated fails): the context is cancelled before the reply
arrives and the reply slot is closed afterwards, before the `select` of `Do` chooses.
Both cases can then fire; when the receive fires, `Do` returns `ErrChannelClosed`,
not `ErrContextDone`. -/
theorem ClearDataForOriginParams_Do_closed_slot_race :
    SelectCase.CanFire true (some .nilValue) (.reply .nilValue) ∧
      SelectCase.CanFire true (some .nilValue) .ctxDone ∧
      (ClearDataForOrigin "https://example.org" "cookies").Do (fun _ => .ok "buf")
        (fun _ => .reply .nilValue) = some .ErrChannelClosed ∧
      (ClearDataForOrigin "https://example.org" "cookies").Do (fun _ => .ok "buf")
        (fun _ => .reply .nilValue) ≠ some .ErrContextDone :=
  ⟨.reply _ rfl, .done rfl, by decide, by decide⟩

/-- C15 (as amended): if the context is cancelled and the reply slot is not ready to
be received from (no reply has arrived and the slot is not closed) when the `select`
of `Do` chooses, then the case that fires is the context's, and `Do` returns
`ErrContextDone` and not `ErrChannelClosed`.  What happens to the slot after the
`select` has chosen is not an input of `Do`.  When instead the slot is ready with
`res` at that moment, `Do` returns `ErrContextDone` or what the reply `res` gives,
according to the case that fires. -/
theorem ClearDataForOriginParams_Do_context_done (p : ClearDataForOriginParams)
    (marshal : ClearDataForOriginParams → Except Error String) (wait : String → SelectCase)
    (buf : String) (hm : marshal p = .ok buf) :
    (SelectCase.CanFire true none (wait buf) →
      wait buf = .ctxDone ∧ p.Do marshal wait = some .ErrContextDone ∧
        p.Do marshal wait ≠ some .ErrChannelClosed) ∧
      SelectCase.CanFire true none .ctxDone ∧
      (∀ res, SelectCase.CanFire true (some res) (wait buf) →
        p.Do marshal wait = some .ErrContextDone ∨
          p.Do marshal wait = p.Do marshal (fun _ => .reply res)) := by
  refine ⟨fun hfire => ?_, .done rfl, fun res hfire => ?_⟩
  · have hw : wait buf = .ctxDone := by
      rcases SelectCase.CanFire.inv hfire with ⟨res, hres, -⟩ | ⟨-, hc⟩
      · cases hres
      · exact hc
    refine ⟨hw, ?_, ?_⟩ <;> simp [ClearDataForOriginParams.Do, hm, hw]
  · rcases SelectCase.CanFire.inv hfire with ⟨res2, hres, hc⟩ | ⟨-, hc⟩
    · right
      cases hres
      simp [ClearDataForOriginParams.Do, hm, hc]
    · left
      simp [ClearDataForOriginParams.Do, hm, hc]

/-- C15 (witness): the context is done, the slot has not resolved, the `select` fires
on the context. -/
theorem ClearDataForOriginParams_Do_context_done_witness :
    SelectCase.CanFire true none .ctxDone ∧
      (ClearDataForOrigin "https://example.org" "cookies").Do (fun _ => .ok "buf")
        (fun _ => .ctxDone) = some .ErrContextDone ∧
      (ClearDataForOrigin "https://example.org" "cookies").Do (fun _ => .ok "buf")
        (fun _ => .ctxDone) ≠ some .ErrChannelClosed :=
  ⟨.done rfl,
    ((ClearDataForOriginParams_Do_context_done (ClearDataForOrigin "https://example.org" "cookies")
      (fun _ => .ok "buf") (fun _ => .ctxDone) "buf" rfl).1 (.done rfl)).2.1,
    ((ClearDataForOriginParams_Do_context_done (ClearDataForOrigin "https://example.org" "cookies")
      (fun _ => .ok "buf") (fun _ => .ctxDone) "buf" rfl).1 (.done rfl)).2.2⟩

/-! ## The key code table -/

theorem lookup_mem_keys {k : KeyCode} {n : String} :
    ∀ (table : List (KeyCode × String)), table.lookup k = some n → k ∈ table.map Prod.fst
  | [], hl => by simp at hl
  | (a, b) :: rest, hl => by
    simp only [List.lookup] at hl
    split at hl
    · rename_i heq
      have : k = a := by simpa using heq
      simp [this]
    · simp [lookup_mem_keys rest hl]

theorem singleton_eq_mk (r c : Char) : String.singleton r = String.mk [c] ↔ r = c := by
  simp [String.singleton, String.ext_iff]

theorem keyCodeNames_isSome_iff (r : Char) :
    (keyCodeNames (String.singleton r)).isSome ↔
      r.toNat ∈ [0x08, 0x09, 0x0A, 0x0D, 0x25, 0x26, 0x27, 0x28] := by
  constructor
  · intro hsome
    obtain ⟨n, hn⟩ := Option.isSome_iff_exists.mp hsome
    have hmem := lookup_mem_keys keyCodeTable hn
    simp only [keyCodeTable, List.map_cons, List.map_nil, List.mem_cons, List.mem_singleton,
      List.not_mem_nil, or_false] at hmem
    have h08 : KeyCodeBackspace = String.mk [Char.ofNat 0x08] := by decide
    have h09 : KeyCodeTab = String.mk [Char.ofNat 0x09] := by decide
    have h0D : KeyCodeCR = String.mk [Char.ofNat 0x0D] := by decide
    have h0A : KeyCodeLF = String.mk [Char.ofNat 0x0A] := by decide
    have h25 : KeyCodeLeft = String.mk [Char.ofNat 0x25] := by decide
    have h26 : KeyCodeUp = String.mk [Char.ofNat 0x26] := by decide
    have h27 : KeyCodeRight = String.mk [Char.ofNat 0x27] := by decide
    have h28 : KeyCodeDown = String.mk [Char.ofNat 0x28] := by decide
    rw [h08, h09, h0D, h0A, h25, h26, h27, h28] at hmem
    simp only [singleton_eq_mk] at hmem
    rcases hmem with rfl | rfl | rfl | rfl | rfl | rfl | rfl | rfl <;> decide
  · intro hmem
    have hr : r = Char.ofNat r.toNat := (Char.ofNat_toNat r).symm
    simp only [List.mem_cons, List.mem_singleton, List.not_mem_nil, or_false] at hmem
    rcases hmem with h | h | h | h | h | h | h | h <;> rw [hr, h] <;> decide

theorem keyCodeNames_none_of_plain (r : Char)
    (hr : 0x20 ≤ r.toNat ∧ r.toNat ≤ 0x7E ∧ r.toNat ∉ [0x25, 0x26, 0x27, 0x28]) :
    keyCodeNames (String.singleton r) = none ∧ r ≠ '\n' := by
  have hnot : ¬ (keyCodeNames (String.singleton r)).isSome := by
    rw [keyCodeNames_isSome_iff]
    obtain ⟨h1, -, h3⟩ := hr
    simp only [List.mem_cons, List.mem_singleton, List.not_mem_nil, or_false] at h3 ⊢
    omega
  have hnone : keyCodeNames (String.singleton r) = none := by
    cases hk : keyCodeNames (String.singleton r) with
    | none => rfl
    | some n => rw [hk] at hnot; exact absurd rfl hnot
  exact ⟨hnone, keyCodeNames_none_ne_lf r hnone⟩

theorem dispatched_flatMap_plain (m : Modifier) :
    ∀ rs : List Char,
      (∀ r ∈ rs, 0x20 ≤ r.toNat ∧ r.toNat ≤ 0x7E ∧ r.toNat ∉ [0x25, 0x26, 0x27, 0x28]) →
      dispatched (rs.flatMap (KeyAction.runeEvents
          { DispatchKeyEvent KeyRawDown with Modifiers := m }
          { DispatchKeyEvent KeyChar with Modifiers := m })) =
        rs.map (fun r => Command.keyEvent
          { Typ := KeyChar, Modifiers := m, Text := String.singleton r, KeyIdentifier := "",
            Key := "", WindowsVirtualKeyCode := 0, NativeVirtualKeyCode := 0,
            IsSystemKey := false }) := by
  intro rs
  induction rs with
  | nil => intro _; simp [dispatched]
  | cons r rest ih =>
    intro hall
    obtain ⟨hnone, hlf⟩ := keyCodeNames_none_of_plain r (hall r (List.mem_cons_self _ _))
    rw [List.flatMap_cons, dispatched_append, dispatched_runeEvents,
      ih (fun q hq => hall q (List.mem_cons_of_mem _ hq))]
    simp [hnone, hlf]

/-- C16 (the claim as stated fails): the percent sign, the printable code point
U+0025, is a key of `keyCodeNames` (it is `KeyCodeLeft`), and typing the text `"%"`
dispatches a raw-key-down system-key event with key `"Left"` before the character
event. -/
theorem keyCodeNames_has_printable_key :
    keyCodeNames (String.singleton '%') = some "Left" ∧
      String.singleton '%' = KeyCodeLeft ∧
      ¬ ('%'.toNat < 0x20) ∧ 0x20 ≤ '%'.toNat ∧ '%'.toNat ≤ 0x7E ∧
      dispatched (KeyAction.Do ⟨"%", []⟩ (FrameHandler.always []) []).trace =
        [ Command.keyEvent
            { Typ := KeyRawDown, Modifiers := 0, Text := "", KeyIdentifier := "%", Key := "Left",
              WindowsVirtualKeyCode := 37, NativeVirtualKeyCode := 37, IsSystemKey := true },
          Command.keyEvent
            { Typ := KeyChar, Modifiers := 0, Text := "%", KeyIdentifier := "", Key := "",
              WindowsVirtualKeyCode := 0, NativeVirtualKeyCode := 0, IsSystemKey := false } ] := by
  refine ⟨by decide, by decide, by decide, by decide, by decide, by decide⟩

/-- C16 (as amended): the keys of `keyCodeNames` are exactly the one-character
strings of the code points U+0008 (backspace), U+0009 (tab), U+000A (line feed),
U+000D (carriage return) and U+0025..U+0028 (the arrow keys; these four are the
printable characters percent, ampersand, apostrophe and opening parenthesis).
Consequently typing a text made only of printable characters (U+0020..U+007E) other
than those four dispatches character events only, never a raw-key-down system-key
event: against every handler each command dispatched is a character event, and
against a dispatcher that never fails the commands are the character events of the
code points, in order. -/
theorem keyCodeNames_keys_and_plain_text (v : String) (mods : List (List Modifier))
    (h : FrameHandler) (tr : List Ev) :
    (∀ k : KeyCode, (keyCodeNames k).isSome ↔
      ∃ r : Char, k = String.singleton r ∧
        r.toNat ∈ [0x08, 0x09, 0x0A, 0x0D, 0x25, 0x26, 0x27, 0x28]) ∧
    ((∀ r ∈ v.data, 0x20 ≤ r.toNat ∧ r.toNat ≤ 0x7E ∧ r.toNat ∉ [0x25, 0x26, 0x27, 0x28]) →
      (∃ new, (KeyAction.Do ⟨v, mods.map KeyModifiers⟩ h tr).trace = tr ++ new ∧
        ∀ c, Ev.dispatch c ∈ new →
          ∃ p, c = .keyEvent p ∧ p.Typ = KeyChar ∧ p.IsSystemKey = false) ∧
      (h.NeverFails →
        dispatched (KeyAction.Do ⟨v, mods.map KeyModifiers⟩ h tr).trace =
          dispatched tr ++ v.data.map (fun r => Command.keyEvent
            { Typ := KeyChar, Modifiers := modifierUnion mods.flatten,
              Text := String.singleton r, KeyIdentifier := "", Key := "",
              WindowsVirtualKeyCode := 0, NativeVirtualKeyCode := 0,
              IsSystemKey := false }))) := by
  refine ⟨fun k => ⟨fun hsome => ?_, ?_⟩, fun hplain => ⟨?_, fun hok => ?_⟩⟩
  · obtain ⟨n, hn⟩ := Option.isSome_iff_exists.mp hsome
    have hmem := lookup_mem_keys keyCodeTable hn
    simp only [keyCodeTable, List.map_cons, List.map_nil, List.mem_cons, List.mem_singleton,
      List.not_mem_nil, or_false] at hmem
    rcases hmem with rfl | rfl | rfl | rfl | rfl | rfl | rfl | rfl
    · exact ⟨Char.ofNat 0x08, by decide, by decide⟩
    · exact ⟨Char.ofNat 0x09, by decide, by decide⟩
    · exact ⟨Char.ofNat 0x0D, by decide, by decide⟩
    · exact ⟨Char.ofNat 0x0A, by decide, by decide⟩
    · exact ⟨Char.ofNat 0x25, by decide, by decide⟩
    · exact ⟨Char.ofNat 0x26, by decide, by decide⟩
    · exact ⟨Char.ofNat 0x27, by decide, by decide⟩
    · exact ⟨Char.ofNat 0x28, by decide, by decide⟩
  · rintro ⟨r, rfl, hr⟩
    exact (keyCodeNames_isSome_iff r).mpr hr
  · obtain ⟨new, hnew, hev⟩ := KeyAction.Do_events v mods h tr
    refine ⟨new, hnew, fun c hc => ?_⟩
    obtain ⟨r, hrv, hr⟩ := hev _ hc
    obtain ⟨hnone, -⟩ := keyCodeNames_none_of_plain r (hplain r hrv)
    simp [KeyAction.runeEvents, hnone, DispatchKeyEvent] at hr
    subst hr
    exact ⟨_, rfl, rfl, rfl⟩
  · rw [KeyAction.Do_neverFails v mods h tr hok, dispatched_append,
      dispatched_flatMap_plain _ _ hplain]

/-- C16 (witness): the text `"Hi!"` typed against a handler that never fails. -/
theorem keyCodeNames_keys_and_plain_text_witness :
    (∀ r ∈ ("Hi!" : String).data,
        0x20 ≤ r.toNat ∧ r.toNat ≤ 0x7E ∧ r.toNat ∉ [0x25, 0x26, 0x27, 0x28]) ∧
      (FrameHandler.always []).NeverFails ∧
      dispatched (KeyAction.Do ⟨"Hi!", [].map KeyModifiers⟩ (FrameHandler.always []) []).trace =
        dispatched [] ++ ("Hi!" : String).data.map (fun r => Command.keyEvent
          { Typ := KeyChar, Modifiers := modifierUnion ([] : List (List Modifier)).flatten,
            Text := String.singleton r, KeyIdentifier := "", Key := "",
            WindowsVirtualKeyCode := 0, NativeVirtualKeyCode := 0, IsSystemKey := false }) :=
  ⟨by decide, FrameHandler.always_neverFails [],
    ((keyCodeNames_keys_and_plain_text "Hi!" [] (FrameHandler.always []) []).2 (by decide)).2
      (FrameHandler.always_neverFails [])⟩

/-! ## Order and independence of mouse options -/

/-- C17: `MouseAction` starts from the fresh parameter value and applies its options
left to right: appending an option applies it to what the options before it built.
So a later option overrides an earlier one on the same field: with `Button(a)`,
`Button(b)` the button is `b`, and with `ClickCount(m)`, `ClickCount(n)` the click
count is `n`, as if only the later option had been given. -/
theorem MouseAction_later_option_wins (typ : MouseType) (x y : Int) (a b : ButtonType)
    (m n : Int) (opts : List MouseOption) (o : MouseOption) :
    MouseAction typ x y [] = DispatchMouseEvent typ x y ∧
      MouseAction typ x y (opts ++ [o]) = o (MouseAction typ x y opts) ∧
      (MouseAction typ x y [Button a, Button b]).Button = b ∧
      (MouseAction typ x y [ClickCount m, ClickCount n]).ClickCount = n ∧
      MouseAction typ x y [Button a, Button b] = MouseAction typ x y [Button b] ∧
      MouseAction typ x y [ClickCount m, ClickCount n] = MouseAction typ x y [ClickCount n] := by
  refine ⟨rfl, by simp [MouseAction, List.foldl_append], rfl, rfl, rfl, rfl⟩

/-- C18: for every parameter value `p`, button `b`, count `n` and modifier list `m`,
each of `Button(b)`, `ClickCount(n)`, `ButtonModifiers(m)` changes only its own
field, and applying the three in any of the six orders gives the same value: `p`
with button `b`, click count `n` and modifiers `p.Modifiers | m`, the event type
and the coordinates of `p` unchanged. -/
theorem mouse_options_commute (p : DispatchMouseEventParams) (b : ButtonType) (n : Int)
    (m : List Modifier) :
    Button b p = { p with Button := b } ∧
      ClickCount n p = { p with ClickCount := n } ∧
      ButtonModifiers m p = { p with Modifiers := p.Modifiers ||| modifierUnion m } ∧
      ButtonModifiers m (ClickCount n (Button b p)) =
        { p with Button := b, ClickCount := n,
                 Modifiers := p.Modifiers ||| modifierUnion m } ∧
      ClickCount n (ButtonModifiers m (Button b p)) =
        ButtonModifiers m (ClickCount n (Button b p)) ∧
      ButtonModifiers m (Button b (ClickCount n p)) =
        ButtonModifiers m (ClickCount n (Button b p)) ∧
      Button b (ButtonModifiers m (ClickCount n p)) =
        ButtonModifiers m (ClickCount n (Button b p)) ∧
      ClickCount n (Button b (ButtonModifiers m p)) =
        ButtonModifiers m (ClickCount n (Button b p)) ∧
      Button b (ClickCount n (ButtonModifiers m p)) =
        ButtonModifiers m (ClickCount n (Button b p)) ∧
      (ButtonModifiers m (ClickCount n (Button b p))).Typ = p.Typ ∧
      (ButtonModifiers m (ClickCount n (Button b p))).X = p.X ∧
      (ButtonModifiers m (ClickCount n (Button b p))).Y = p.Y := by
  simp [ButtonModifiers_eq, Button, ClickCount, DispatchMouseEventParams.WithButton,
    DispatchMouseEventParams.WithClickCount]

/-! ## Pacing of the keyboard synthesizer -/

theorem pauses_append (a b : List Ev) : pauses (a ++ b) = pauses a ++ pauses b := by
  induction a with
  | nil => simp [pauses]
  | cons e rest ih => cases e <;> simp [pauses, ih]

theorem runeEvents_explicit (m : Modifier) (r : Char) :
    KeyAction.runeEvents { DispatchKeyEvent KeyRawDown with Modifiers := m }
        { DispatchKeyEvent KeyChar with Modifiers := m } r =
      (match keyCodeNames (String.singleton r) with
        | some n =>
          [Ev.dispatch (.keyEvent
            { Typ := KeyRawDown, Modifiers := m, Text := "",
              KeyIdentifier := if r = '\n' then "\r" else String.singleton r,
              Key := n,
              WindowsVirtualKeyCode := if r = '\n' then 13 else (r.toNat : Int),
              NativeVirtualKeyCode := if r = '\n' then 13 else (r.toNat : Int),
              IsSystemKey := true })]
        | none => []) ++
      [ Ev.dispatch (.keyEvent
          { Typ := KeyChar, Modifiers := m,
            Text := if r = '\n' then "\r" else String.singleton r,
            KeyIdentifier := "", Key := "", WindowsVirtualKeyCode := 0,
            NativeVirtualKeyCode := 0, IsSystemKey := false }),
        Ev.sleep 100 ] := by
  cases hk : keyCodeNames (String.singleton r) <;>
    simp [KeyAction.runeEvents, hk, DispatchKeyEvent]

theorem pauses_flatMap_runeEvents (sysP keyP : DispatchKeyEventParams) (rs : List Char) :
    pauses (rs.flatMap (KeyAction.runeEvents sysP keyP)) = List.replicate rs.length 100 := by
  induction rs with
  | nil => simp [pauses]
  | cons r rest ih =>
    rw [List.flatMap_cons, pauses_append, ih]
    cases hk : keyCodeNames (String.singleton r) <;>
      simp [KeyAction.runeEvents, hk, pauses, List.replicate_succ]

/-- C19: on a run of `KeyAction.Do` in which no dispatch fails, the trace is, for
each code point of the text in order: its raw-key-down event if it is a key of
`keyCodeNames`, its character event, then one pause of 100 ms.  So there is exactly
one pause per code point, after its character event and before any event of the
next code point.  For the empty text nothing is dispatched and there is no pause,
whatever the handler. -/
theorem KeyAction_Do_pauses (v : String) (mods : List (List Modifier)) (opts : List KeyOption)
    (h : FrameHandler) (tr : List Ev) :
    (h.NeverFails →
      (KeyAction.Do ⟨v, mods.map KeyModifiers⟩ h tr).trace =
          tr ++ v.data.flatMap (fun r =>
            (match keyCodeNames (String.singleton r) with
              | some n =>
                [Ev.dispatch (.keyEvent
                  { Typ := KeyRawDown, Modifiers := modifierUnion mods.flatten, Text := "",
                    KeyIdentifier := if r = '\n' then "\r" else String.singleton r,
                    Key := n,
                    WindowsVirtualKeyCode := if r = '\n' then 13 else (r.toNat : Int),
                    NativeVirtualKeyCode := if r = '\n' then 13 else (r.toNat : Int),
                    IsSystemKey := true })]
              | none => []) ++
            [ Ev.dispatch (.keyEvent
                { Typ := KeyChar, Modifiers := modifierUnion mods.flatten,
                  Text := if r = '\n' then "\r" else String.singleton r,
                  KeyIdentifier := "", Key := "", WindowsVirtualKeyCode := 0,
                  NativeVirtualKeyCode := 0, IsSystemKey := false }),
              Ev.sleep 100 ]) ∧
        pauses (KeyAction.Do ⟨v, mods.map KeyModifiers⟩ h tr).trace =
          pauses tr ++ List.replicate v.length 100) ∧
    KeyAction.Do ⟨"", opts⟩ h tr = ⟨.nil, tr⟩ := by
  refine ⟨fun hok => ?_, rfl⟩
  rw [KeyAction.Do_neverFails v mods h tr hok]
  refine ⟨?_, ?_⟩
  · have hfun : KeyAction.runeEvents
        { DispatchKeyEvent KeyRawDown with Modifiers := modifierUnion mods.flatten }
        { DispatchKeyEvent KeyChar with Modifiers := modifierUnion mods.flatten } = _ :=
      funext (runeEvents_explicit (modifierUnion mods.flatten))
    rw [hfun]
  · rw [pauses_append, pauses_flatMap_runeEvents]
    rfl

/-- C19 (witness): the text `"a\n"`: character, pause, raw-key-down, character, pause. -/
theorem KeyAction_Do_pauses_witness :
    (FrameHandler.always []).NeverFails ∧
      (KeyAction.Do ⟨"a\n", [].map KeyModifiers⟩ (FrameHandler.always []) []).trace =
        [ Ev.dispatch (.keyEvent
            { Typ := KeyChar, Modifiers := 0, Text := "a", KeyIdentifier := "", Key := "",
              WindowsVirtualKeyCode := 0, NativeVirtualKeyCode := 0, IsSystemKey := false }),
          Ev.sleep 100,
          Ev.dispatch (.keyEvent
            { Typ := KeyRawDown, Modifiers := 0, Text := "", KeyIdentifier := "\r",
              Key := "Enter", WindowsVirtualKeyCode := 13, NativeVirtualKeyCode := 13,
              IsSystemKey := true }),
          Ev.dispatch (.keyEvent
            { Typ := KeyChar, Modifiers := 0, Text := "\r", KeyIdentifier := "", Key := "",
              WindowsVirtualKeyCode := 0, NativeVirtualKeyCode := 0, IsSystemKey := false }),
          Ev.sleep 100 ] ∧
      pauses (KeyAction.Do ⟨"a\n", [].map KeyModifiers⟩ (FrameHandler.always []) []).trace =
        pauses [] ++ List.replicate ("a\n" : String).length 100 :=
  ⟨FrameHandler.always_neverFails [],
    ((KeyAction_Do_pauses "a\n" [] [] (FrameHandler.always []) []).1
      (FrameHandler.always_neverFails [])).1,
    ((KeyAction_Do_pauses "a\n" [] [] (FrameHandler.always []) []).1
      (FrameHandler.always_neverFails [])).2⟩

/-! ## The empty content list -/

/-- C20 (what the code does): when the geometry query succeeds with the empty
content list, the length 0 passes the `c%2` check, the divisor `int64(c/2)` is 0 and
the division panics: `MouseActionNode` neither returns `ErrInvalidDimensions` nor
goes on to click; the only command dispatched is the geometry query. -/
theorem MouseActionNode_empty_content_panics (n : NodeID) (opts : List MouseOption)
    (tr : List Ev) :
    MouseActionNode n opts (FrameHandler.always []) tr =
        ⟨.panicked, tr ++ [.dispatch (.getBoxModel n)]⟩ ∧
      ([] : List Int).length % 2 = 0 ∧ ([] : List Int).length / 2 = 0 := by
  refine ⟨?_, rfl, rfl⟩
  simp [MouseActionNode, GetBoxModel, FrameHandler.always]

/-! ## The click point and the bounding box -/

set_option maxRecDepth 8192 in
/-- C21: the click point of `MouseActionNode` is the vertex centroid, not the centre of
the bounding box.  For the quad `[0,0,12,0,12,12,0,0]`, with the vertices `(0,0)`,
`(12,0)`, `(12,12)`, `(0,0)`, the press and the release are dispatched at
`(24/4, 12/4) = (6,3)`, while the bounding box runs from `(0,0)` to `(12,12)` and
has the centre `(6,6)`. -/
theorem MouseActionNode_centroid_not_box_centre :
    [0, 0, 12, 0, 12, 12, 0, 0].length % 2 = 0 ∧
      dispatched
          (MouseActionNode 1 [] (FrameHandler.always [0, 0, 12, 0, 12, 12, 0, 0]) []).trace =
        [ .getBoxModel 1,
          .mouseEvent { Typ := MousePressed, X := 6, Y := 3, Modifiers := 0,
                        Button := ButtonLeft, ClickCount := 1 },
          .mouseEvent { Typ := MouseReleased, X := 6, Y := 3, Modifiers := 0,
                        Button := ButtonLeft, ClickCount := 1 } ] ∧
      xCoords [0, 0, 12, 0, 12, 12, 0, 0] = [0, 12, 12, 0] ∧
      yCoords [0, 0, 12, 0, 12, 12, 0, 0] = [0, 0, 12, 0] ∧
      Int.tdiv ([0, 12, 12, 0] : List Int).sum 4 = 6 ∧
      Int.tdiv ([0, 0, 12, 0] : List Int).sum 4 = 3 ∧
      Int.tdiv (minCoord [0, 12, 12, 0] + maxCoord [0, 12, 12, 0]) 2 = 6 ∧
      Int.tdiv (minCoord [0, 0, 12, 0] + maxCoord [0, 0, 12, 0]) 2 = 6 ∧
      ((6, 3) : Int × Int) ≠
        (Int.tdiv (minCoord [0, 12, 12, 0] + maxCoord [0, 12, 12, 0]) 2,
          Int.tdiv (minCoord [0, 0, 12, 0] + maxCoord [0, 0, 12, 0]) 2) := by
  refine ⟨by decide, by decide, by decide, by decide, by decide, by decide, by decide,
    by decide, by decide⟩

/-- C22: for every non-empty content list of even length with integer coordinates,
each within `int64`, whose sums do not overflow `int64`, `MouseActionNode` clicks at
the point whose x is the sum of the x-coordinates divided by the vertex count with
truncation toward zero, and likewise for y, and that point lies inside the bounding
box of the vertices: min x <= click x <= max x and min y <= click y <= max y, where
min and max are the least and the greatest coordinate of a vertex.  Negative
coordinates are not excluded.  The click coordinates are again within `int64`. -/
theorem MouseActionNode_click_in_bounding_box (n : NodeID) (opts : List MouseOption)
    (h : FrameHandler) (tr : List Ev) (content : List Int)
    (hq : h.exec tr (.getBoxModel n) = none) (hbox : h.box tr n = ⟨content⟩)
    (heven : content.length % 2 = 0) (hne : 0 < content.length)
    (hc : ∀ c ∈ content, InInt64 c)
    (hx : InInt64 (xCoords content).sum) (hy : InInt64 (yCoords content).sum) :
    MouseActionNode n opts h tr =
        MouseClickXY (Int.tdiv (xCoords content).sum ((content.length / 2 : Nat) : Int))
          (Int.tdiv (yCoords content).sum ((content.length / 2 : Nat) : Int)) opts h
          (tr ++ [.dispatch (.getBoxModel n)]) ∧
      minCoord (xCoords content) ≤
        Int.tdiv (xCoords content).sum ((content.length / 2 : Nat) : Int) ∧
      Int.tdiv (xCoords content).sum ((content.length / 2 : Nat) : Int) ≤
        maxCoord (xCoords content) ∧
      minCoord (yCoords content) ≤
        Int.tdiv (yCoords content).sum ((content.length / 2 : Nat) : Int) ∧
      Int.tdiv (yCoords content).sum ((content.length / 2 : Nat) : Int) ≤
        maxCoord (yCoords content) ∧
      (∀ a ∈ xCoords content, minCoord (xCoords content) ≤ a ∧ a ≤ maxCoord (xCoords content)) ∧
      (∀ b ∈ yCoords content, minCoord (yCoords content) ≤ b ∧ b ≤ maxCoord (yCoords content)) ∧
      minCoord (xCoords content) ∈ xCoords content ∧
      maxCoord (xCoords content) ∈ xCoords content ∧
      minCoord (yCoords content) ∈ yCoords content ∧
      maxCoord (yCoords content) ∈ yCoords content ∧
      InInt64 (Int.tdiv (xCoords content).sum ((content.length / 2 : Nat) : Int)) ∧
      InInt64 (Int.tdiv (yCoords content).sum ((content.length / 2 : Nat) : Int)) := by
  have hk : 0 < content.length / 2 := by omega
  have hxs := truncated_mean_in_range (xCoords content) _ (xCoords_length content) hk
  have hys := truncated_mean_in_range (yCoords content) _ (yCoords_length content) hk
  have hxne : xCoords content ≠ [] := by
    intro hnil
    have := xCoords_length content
    rw [hnil] at this
    simp at this
    omega
  have hyne : yCoords content ≠ [] := by
    intro hnil
    have := yCoords_length content
    rw [hnil] at this
    simp at this
    omega
  exact ⟨MouseActionNode_eq_click n opts h tr content hq hbox heven hne hx hy,
    hxs.1, hxs.2, hys.1, hys.2,
    fun a ha => ⟨minCoord_le _ a ha, le_maxCoord _ a ha⟩,
    fun b hb => ⟨minCoord_le _ b hb, le_maxCoord _ b hb⟩,
    minCoord_mem _ hxne, maxCoord_mem _ hxne, minCoord_mem _ hyne, maxCoord_mem _ hyne,
    truncated_mean_inInt64 _ _ (xCoords_length content) hk
      (fun a ha => hc a (xCoords_subset content a ha)),
    truncated_mean_inInt64 _ _ (yCoords_length content) hk
      (fun a ha => hc a (yCoords_subset content a ha))⟩

/-- C22 (witness): the content list `[-5,7,-2,8]`, with the vertices `(-5,7)` and
`(-2,8)`: the sums are -7 and 15, the click point is `(-3,7)`, the division of -7 by
2 truncating toward zero, and -5 <= -3 <= -2, 7 <= 7 <= 8. -/
theorem MouseActionNode_click_in_bounding_box_witness :
    (FrameHandler.always [-5, 7, -2, 8]).exec [] (.getBoxModel 1) = none ∧
      [-5, 7, -2, 8].length % 2 = 0 ∧ 0 < [-5, 7, -2, 8].length ∧
      (∀ c ∈ ([-5, 7, -2, 8] : List Int), InInt64 c) ∧
      InInt64 (xCoords [-5, 7, -2, 8]).sum ∧ InInt64 (yCoords [-5, 7, -2, 8]).sum ∧
      MouseActionNode 1 [] (FrameHandler.always [-5, 7, -2, 8]) [] =
        MouseClickXY (-3) 7 [] (FrameHandler.always [-5, 7, -2, 8])
          [.dispatch (.getBoxModel 1)] ∧
      minCoord (xCoords [-5, 7, -2, 8]) = -5 ∧ maxCoord (xCoords [-5, 7, -2, 8]) = -2 ∧
      minCoord (yCoords [-5, 7, -2, 8]) = 7 ∧ maxCoord (yCoords [-5, 7, -2, 8]) = 8 ∧
      minCoord (xCoords [-5, 7, -2, 8]) ≤ -3 ∧ -3 ≤ maxCoord (xCoords [-5, 7, -2, 8]) ∧
      minCoord (yCoords [-5, 7, -2, 8]) ≤ 7 ∧ 7 ≤ maxCoord (yCoords [-5, 7, -2, 8]) :=
  have key := MouseActionNode_click_in_bounding_box 1 [] (FrameHandler.always [-5, 7, -2, 8]) []
    [-5, 7, -2, 8] rfl rfl (by decide) (by decide) (by decide) (by decide) (by decide)
  ⟨rfl, by decide, by decide, by decide, by decide, by decide, key.1,
    by decide, by decide, by decide, by decide,
    key.2.1, key.2.2.1, key.2.2.2.1, key.2.2.2.2.1⟩

end Chromedp
